import Mathlib

/-!
# Stock ledger (`Projet C/main.Group Project.c`)

A shallow embedding of the stock management program and theorems about it.

Modelling conventions.

* C strings are lists of characters (`List Char`), one `Char` per byte; the
  text handled contains no NUL character.
* The global array `stock` together with the counter `nombreProduits` is the
  list of the first `nombreProduits` cells of the array: `stock[nombreProduits++] = p`
  appends `p`, a write `stock[j] = v` with `j < nombreProduits` is `List.set`,
  and `nombreProduits--` drops the last cell.  The array has `MAX_PRODUITS`
  cells; a list longer than that stands for a counter that ran past the array.
* `int` is `Int`; the value `scanf("%d")` stores is brought into the 32-bit
  range by `versInt`.
* `float` is the type `Flottant` of the IEEE 754 binary32 values: finite
  numbers, the two infinities and NaN; the result of `%f`, of a product and of
  a sum is rounded to nearest, ties to even.  The sign of zero and the sign of
  a NaN are not represented.
* Standard input and the stock file are character streams (`List Char`); every
  function that reads returns what is left of the stream.
* A function whose C code may loop forever (the re-prompt loops at end of
  input) or read an uninitialised buffer returns `none` in that case.
* Prompts are not part of the model; each operation returns the message that
  ends it as an `Issue`, and the listings return the rows they print.
* The loop of `main` is run for a bounded number of rounds; `none` stands for a
  run that is not over within the bound.
-/

namespace Stock

/-! ## Data model -/

/-- The constant `MAX_PRODUITS` (`#define MAX_PRODUITS 100`): the number of cells of `stock`. -/
def MAX_PRODUITS : Nat := 100

/-! ## The type `float` -/

/-- The C type `float` (IEEE 754 binary32): a finite number, below `2 ^ 128` in
absolute value, an infinity or a NaN.  The sign of zero and the sign of a NaN
are not represented. -/
inductive Flottant where
  | fini (v : ℚ) (h : v.num.natAbs < 2 ^ 128 * v.den)
  | infini (neg : Bool)
  | nan
deriving DecidableEq

/-- The power `2 ^ e` for an integer `e`. -/
def deux (e : Int) : ℚ :=
  if 0 ≤ e then mkRat (2 ^ e.toNat) 1 else mkRat 1 (2 ^ (-e).toNat)

/-- The number of times `n` can be halved before it is below 2, counted for at
most `fuel` halvings. -/
def log2Aux : Nat → Nat → Nat
  | 0, _ => 0
  | fuel + 1, n => if 2 ≤ n then log2Aux fuel (n / 2) + 1 else 0

/-- The integer `k` with `2 ^ k ≤ n < 2 ^ (k + 1)`, for `n > 0`. -/
def log2 (n : Nat) : Nat := log2Aux n n

/-- The integer `e` with `2 ^ e ≤ a < 2 ^ (e + 1)`, for `a > 0`. -/
def exposant (a : ℚ) : Int :=
  let k : Int := (log2 a.num.natAbs : Int) - (log2 a.den : Int)
  if deux k ≤ a then k else k - 1

/-- The integer nearest to `a ≥ 0`, ties going to the even one. -/
def arrondiEntier (a : ℚ) : Nat :=
  let q := a.num.natAbs / a.den
  let r := a.num.natAbs % a.den
  if 2 * r < a.den then q
  else if a.den < 2 * r then q + 1
  else if q % 2 = 0 then q else q + 1

/-- The rounding of a rational to `float` (to nearest, ties to even): 24
significant bits, exponents from `-126`, smaller numbers on the grid of
`2 ^ (-149)`, and an infinity from `2 ^ 128` on. -/
@[irreducible]
def arrondir (r : ℚ) : Flottant :=
  let a : ℚ := if r < 0 then -r else r
  let e : Int := max (exposant a) (-126)
  let m : ℚ := arrondiEntier (a * deux (23 - e))
  let v : ℚ := if r < 0 then -(m * deux (e - 23)) else m * deux (e - 23)
  if r = 0 then Flottant.fini 0 (by simp)
  else if h : v.num.natAbs < 2 ^ 128 * v.den then Flottant.fini v h
  else Flottant.infini (decide (r < 0))

instance (n : Nat) : OfNat Flottant n := ⟨arrondir n⟩

/-- The conversion of an `int` to `float`. -/
def Flottant.deEntier (q : Int) : Flottant := arrondir q

/-- The product of two `float`. -/
def Flottant.mul : Flottant → Flottant → Flottant
  | Flottant.fini a _, Flottant.fini b _ => arrondir (a * b)
  | Flottant.fini a _, Flottant.infini t =>
    if a = 0 then Flottant.nan else Flottant.infini (decide (a < 0) != t)
  | Flottant.infini s, Flottant.fini b _ =>
    if b = 0 then Flottant.nan else Flottant.infini (s != decide (b < 0))
  | Flottant.infini s, Flottant.infini t => Flottant.infini (s != t)
  | _, _ => Flottant.nan

/-- The sum of two `float`. -/
def Flottant.add : Flottant → Flottant → Flottant
  | Flottant.fini a _, Flottant.fini b _ => arrondir (a + b)
  | Flottant.fini _ _, Flottant.infini t => Flottant.infini t
  | Flottant.infini s, Flottant.fini _ _ => Flottant.infini s
  | Flottant.infini s, Flottant.infini t => if s = t then Flottant.infini s else Flottant.nan
  | _, _ => Flottant.nan

/-- The comparison `x < y` of two `float`: false as soon as one is a NaN. -/
def Flottant.inferieur : Flottant → Flottant → Bool
  | Flottant.fini a _, Flottant.fini b _ => decide (a < b)
  | Flottant.fini _ _, Flottant.infini t => !t
  | Flottant.infini s, Flottant.fini _ _ => s
  | Flottant.infini s, Flottant.infini t => s && !t
  | _, _ => false

instance : Mul Flottant := ⟨Flottant.mul⟩
instance : Add Flottant := ⟨Flottant.add⟩
instance : LT Flottant := ⟨fun x y => Flottant.inferieur x y = true⟩
instance (x y : Flottant) : Decidable (x < y) :=
  inferInstanceAs (Decidable (Flottant.inferieur x y = true))

/-- The rational a finite `float` stands for (0 for an infinity or a NaN). -/
def Flottant.valeur : Flottant → ℚ
  | Flottant.fini v _ => v
  | _ => 0

/-! ## Data model, continued -/

/-- The constant `PRIX_MIN` (`#define PRIX_MIN 0.01f`): the `float` nearest to 0.01. -/
def PRIX_MIN : Flottant := arrondir (mkRat 1 100)

/-- The C `struct Produit`: `char id[20]; char nom[50]; int quantite; float prix;`. -/
structure Produit where
  id : List Char
  nom : List Char
  quantite : Int
  prix : Flottant
deriving DecidableEq

/-- The message that ends an operation. -/
inductive Issue where
  /-- Message "Le stock est plein! Impossible d'ajouter." -/
  | stockPlein
  /-- Message "Un produit avec cet ID existe deja!" -/
  | idExiste
  /-- Message "Produit ajoute avec succes!" -/
  | ajoute
  /-- Message "Produit non trouve!" -/
  | nonTrouve
  /-- Message "Produit modifie avec succes!" -/
  | modifie
  /-- Message "Produit supprime avec succes!" -/
  | supprime
deriving DecidableEq

/-! ## The C library functions the program calls -/

/-- The C `isspace` in the "C" locale. -/
def isspace (c : Char) : Bool :=
  c = ' ' || c = '\t' || c = '\n' || c = '\x0b' || c = '\x0c' || c = '\r'

/-- The program's `viderBuffer`: `while((c = getchar()) != '\n' && c != EOF);`. -/
def viderBuffer : List Char → List Char
  | [] => []
  | c :: cs => if c = '\n' then cs else viderBuffer cs

/-- The directive `%Ns` of `scanf` on a zero-initialised buffer: white space is
skipped, then at most `largeur` characters that are not white space are stored.
At end of input nothing is stored and the buffer stays empty. -/
def scanfS (largeur : Nat) (e : List Char) : List Char × List Char :=
  let e1 := e.dropWhile isspace
  let mot := (e1.takeWhile (fun c => !isspace c)).take largeur
  (mot, e1.drop mot.length)

/-- The characters `fgets` stores for a buffer with room for `k` characters:
it stops after a newline, which is stored. -/
def lireLigne : Nat → List Char → List Char × List Char
  | 0, e => ([], e)
  | _ + 1, [] => ([], [])
  | k + 1, c :: cs =>
    if c = '\n' then ([c], cs)
    else ((lireLigne k cs).1.cons c, (lireLigne k cs).2)

/-- The C `fgets(buf, n, f)`: `none` (a null pointer) at end of input, otherwise
at most `n - 1` characters. -/
def fgets (n : Nat) (e : List Char) : Option (List Char) × List Char :=
  match e with
  | [] => (none, [])
  | _ :: _ => (some (lireLigne (n - 1) e).1, (lireLigne (n - 1) e).2)

/-- The statement `buf[strcspn(buf, "\n")] = '\0';`: the text is cut at its first newline. -/
def couperFinDeLigne (buf : List Char) : List Char :=
  buf.takeWhile (fun c => c ≠ '\n')

/-- The statements `fgets(buf, 50, stdin); buf[strcspn(buf, "\n")] = '\0';` on a
zero-initialised buffer: the text stored and the input left.  At end of input
the buffer stays empty. -/
def lireTexte (e : List Char) : List Char × List Char :=
  (couperFinDeLigne (((fgets 50 e).1).getD []), (fgets 50 e).2)

/-- The value of a run of decimal digits. -/
def valeurChiffres (ds : List Char) : Nat :=
  ds.foldl (fun a c => 10 * a + (c.toNat - 48)) 0

/-- The conversion of a `long` to `int` as glibc's `scanf("%d")` does it: the
value read saturates at the limits of a 64-bit `long` and is then truncated
to 32 bits. -/
def versInt (v : Int) : Int :=
  let l := max (-(2 ^ 63)) (min v (2 ^ 63 - 1))
  (l + 2 ^ 31) % 2 ^ 32 - 2 ^ 31

/-- An optional sign: whether it is a minus, and the rest of the text. -/
def lireSigne : List Char → Bool × List Char
  | [] => (false, [])
  | c :: cs => if c = '-' then (true, cs) else if c = '+' then (false, cs) else (false, c :: cs)

/-- The directive `%d` of `scanf`: white space is skipped, then an optional sign
and a non-empty run of digits are read.  The first component is `none` when no
number could be read; the second is the input left. -/
def scanfD (e : List Char) : Option Int × List Char :=
  let s := lireSigne (e.dropWhile isspace)
  let ds := s.2.takeWhile Char.isDigit
  let reste := s.2.dropWhile Char.isDigit
  if ds = [] then (none, reste)
  else (some (versInt (if s.1 then -(valeurChiffres ds : Int) else valeurChiffres ds)), reste)

/-- The rational `m * 10 ^ x / 10 ^ k`, negated when `neg` holds. -/
def decimal (neg : Bool) (m k : Nat) (x : Int) : ℚ :=
  let q : ℚ := if 0 ≤ x then mkRat (m * 10 ^ x.toNat) (10 ^ k) else mkRat m (10 ^ (k + (-x).toNat))
  if neg then -q else q

/-- The number of leading characters of a text that spell the beginning of a
word, each letter given in lower and in upper case. -/
def commun : List (Char × Char) → List Char → Nat
  | m :: ms, c :: cs => if c = m.1 ∨ c = m.2 then commun ms cs + 1 else 0
  | _, _ => 0

/-- The word `nan`, in either case. -/
def motNan : List (Char × Char) := [('n', 'N'), ('a', 'A'), ('n', 'N')]

/-- The word `inf`, in either case. -/
def motInf : List (Char × Char) := [('i', 'I'), ('n', 'N'), ('f', 'F')]

/-- The end `inity` of the word `infinity`, in either case. -/
def motInity : List (Char × Char) :=
  [('i', 'I'), ('n', 'N'), ('i', 'I'), ('t', 'T'), ('y', 'Y')]

/-- The words `nan`, `inf` and `infinity` of the directive `%f`, after the sign:
`none` when the text begins with neither `n` nor `i`; otherwise the value read
(`none` when the word is not complete) and the text left after the letters
that spell the word. -/
def lireMot (t : List Char) : Option (Option Flottant × List Char) :=
  if 0 < commun motNan t then
    if commun motNan t = 3 then some (some Flottant.nan, t.drop 3)
    else some (none, t.drop (commun motNan t))
  else if 0 < commun motInf t then
    if commun motInf t = 3 then
      if commun motInity (t.drop 3) = 0 then some (some (Flottant.infini false), t.drop 3)
      else if commun motInity (t.drop 3) = 5 then some (some (Flottant.infini false), t.drop 8)
      else some (none, t.drop (3 + commun motInity (t.drop 3)))
    else some (none, t.drop (commun motInf t))
  else none

/-- The digits before and after the point of a number whose digits satisfy
`chiffre`, and the text left. -/
def lireMantisse (chiffre : Char → Bool) (t : List Char) :
    List Char × List Char × List Char :=
  match t.dropWhile chiffre with
  | [] => (t.takeWhile chiffre, [], [])
  | c :: cs =>
    if c = '.' then (t.takeWhile chiffre, cs.takeWhile chiffre, cs.dropWhile chiffre)
    else (t.takeWhile chiffre, [], c :: cs)

/-- The exponent part of a floating constant: the letter `min` or `maj`, an
optional sign and decimal digits.  The exponent is 0 when there is no exponent
part, and also when the letter is followed by no digit (the letter and the
sign are consumed all the same, as glibc does). -/
def lireExposant (min maj : Char) : List Char → Int × List Char
  | [] => (0, [])
  | c :: cs =>
    if c = min ∨ c = maj then
      (if (lireSigne cs).1 then -(valeurChiffres ((lireSigne cs).2.takeWhile Char.isDigit) : Int)
        else valeurChiffres ((lireSigne cs).2.takeWhile Char.isDigit),
       (lireSigne cs).2.dropWhile Char.isDigit)
    else (0, c :: cs)

/-- A decimal floating constant after the sign: digits with an optional
fractional part, at least one digit in all, and an optional exponent. -/
def lireDecimal (neg : Bool) (t : List Char) : Option Flottant × List Char :=
  let m := lireMantisse Char.isDigit t
  if m.1 = [] ∧ m.2.1 = [] then (none, m.2.2)
  else
    (some (arrondir (decimal neg (valeurChiffres (m.1 ++ m.2.1)) m.2.1.length
        (lireExposant 'e' 'E' m.2.2).1)),
      (lireExposant 'e' 'E' m.2.2).2)

/-- Whether a character is a hexadecimal digit. -/
def estHexa (c : Char) : Bool :=
  c.isDigit || (97 ≤ c.toNat && c.toNat ≤ 102) || (65 ≤ c.toNat && c.toNat ≤ 70)

/-- The value of a run of hexadecimal digits. -/
def valeurHexa (ds : List Char) : Nat :=
  ds.foldl (fun a c => 16 * a +
    (if c.isDigit then c.toNat - 48 else if 97 ≤ c.toNat then c.toNat - 87 else c.toNat - 55)) 0

/-- Whether a text begins with the prefix `0x` or `0X` of a hexadecimal constant. -/
def prefixeHexa : List Char → Bool
  | c :: x :: _ => c = '0' && (x = 'x' || x = 'X')
  | _ => false

/-- A hexadecimal floating constant after the sign and the prefix `0x`:
hexadecimal digits with an optional fractional part, at least one digit in
all, and an optional binary exponent after `p`. -/
def lireHexa (neg : Bool) (t : List Char) : Option Flottant × List Char :=
  let m := lireMantisse estHexa t
  if m.1 = [] ∧ m.2.1 = [] then (none, m.2.2)
  else
    (some (arrondir
        ((if neg then -(valeurHexa (m.1 ++ m.2.1) : ℚ) else valeurHexa (m.1 ++ m.2.1)) *
          deux ((lireExposant 'p' 'P' m.2.2).1 - 4 * m.2.1.length))),
      (lireExposant 'p' 'P' m.2.2).2)

/-- The directive `%f` of `scanf` and `sscanf`: white space is skipped, then an
optional sign and one of the words `nan`, `inf`, `infinity`, a hexadecimal
constant or a decimal constant are read, and the number is rounded to `float`.
The first component is `none` when no number could be read; the second is the
input left. -/
@[irreducible]
def scanfF (e : List Char) : Option Flottant × List Char :=
  let s := lireSigne (e.dropWhile isspace)
  match lireMot s.2 with
  | some (some (Flottant.infini _), r) => (some (Flottant.infini s.1), r)
  | some (v, r) => (v, r)
  | none =>
    if prefixeHexa s.2 then lireHexa s.1 (s.2.drop 2)
    else lireDecimal s.1 s.2

/-- The C `strstr(h, t) != NULL`: `t` occurs in `h` starting at some position. -/
def strstr : List Char → List Char → Bool
  | [], t => t.isEmpty
  | c :: cs, t => t.isPrefixOf (c :: cs) || strstr cs t

/-- The conversion `%d` of `printf`. -/
def ecrireD (q : Int) : List Char :=
  if q < 0 then '-' :: Nat.toDigits 10 q.natAbs else Nat.toDigits 10 q.toNat

/-- The number of hundredths nearest to `|p|`, ties going to the even one. -/
def centiemes (p : ℚ) : Nat :=
  let n := p.num.natAbs * 100
  let q := n / p.den
  let r := n % p.den
  if 2 * r < p.den then q
  else if p.den < 2 * r then q + 1
  else if q % 2 = 0 then q else q + 1

/-- The conversion `%.2f` of `printf`: a sign for negative values, the integer
part, a point and exactly two decimals; `inf` and `nan` for the values that
are not numbers. -/
def ecrireF2 : Flottant → List Char
  | Flottant.fini v _ =>
    (if v < 0 then ['-'] else []) ++ Nat.toDigits 10 (centiemes v / 100) ++
      ['.', Nat.digitChar (centiemes v % 100 / 10), Nat.digitChar (centiemes v % 10)]
  | Flottant.infini neg => (if neg then ['-'] else []) ++ ['i', 'n', 'f']
  | Flottant.nan => ['n', 'a', 'n']

/-- The `float` that `%f` reads from what `%.2f` wrote for `x`. -/
def Flottant.relire : Flottant → Flottant
  | Flottant.fini v _ => arrondir (decimal (decide (v < 0)) (centiemes v) 2 0)
  | x => x

/-! ## Loading and saving the stock file -/

/-- The directive `%N[^|]` of `sscanf`: at most `largeur` characters other than
`|`, at least one; no white space is skipped. -/
def scanEnsemble (largeur : Nat) (s : List Char) : Option (List Char × List Char) :=
  let m := (s.takeWhile (fun c => c ≠ '|')).take largeur
  if m = [] then none else some (m, s.drop m.length)

/-- A literal `|` in the format of `sscanf`. -/
def scanBarre : List Char → Option (List Char)
  | [] => none
  | c :: cs => if c = '|' then some cs else none

/-- The call `sscanf(ligne, "%19[^|]|%49[^|]|%d|%f", p.id, p.nom, &p.quantite, &p.prix)`
together with the test `>= 4`: the record when all four fields were converted,
`none` otherwise. -/
def sscanfLigne (ligne : List Char) : Option Produit :=
  match scanEnsemble 19 ligne with
  | none => none
  | some (id, s1) =>
    match scanBarre s1 with
    | none => none
    | some s2 =>
      match scanEnsemble 49 s2 with
      | none => none
      | some (nom, s3) =>
        match scanBarre s3 with
        | none => none
        | some s4 =>
          match scanfD s4 with
          | (none, _) => none
          | (some q, s5) =>
            match scanBarre s5 with
            | none => none
            | some s6 =>
              match scanfF s6 with
              | (none, _) => none
              | (some prix, _) => some ⟨id, nom, q, prix⟩

/-- The `while (fgets(ligne, sizeof(ligne), fichier))` loop of `chargerStock`,
run for at most `fuel` lines. -/
def chargerLignes : Nat → List Char → List Produit → List Produit
  | 0, _, stock => stock
  | fuel + 1, contenu, stock =>
    match fgets 256 contenu with
    | (none, _) => stock
    | (some ligne, reste) =>
      if ligne.head? = some '#' ∨ ligne.head? = some '\n' then chargerLignes fuel reste stock
      else
        match sscanfLigne ligne with
        | some p => chargerLignes fuel reste (stock ++ [p])
        | none => chargerLignes fuel reste stock

/-- The program's `chargerStock`.  `fichier` is the content of `stock.txt`, or
`none` when the file cannot be opened.  Every `fgets` takes at least one
character, so `contenu.length` rounds are enough to reach the end of the file. -/
def chargerStock (fichier : Option (List Char)) (stock : List Produit) : List Produit :=
  match fichier with
  | none => stock
  | some contenu => chargerLignes contenu.length contenu stock

/-- One round of the `for` loop of `sauvegarderStock`:
`fprintf(fichier, "\n%s| %s| %d| %.2f\n", ...)`. -/
def ecrireProduit (p : Produit) : List Char :=
  '\n' :: p.id ++ "| ".toList ++ p.nom ++ "| ".toList ++ ecrireD p.quantite ++
    "| ".toList ++ ecrireF2 p.prix ++ ['\n']

/-- The two header lines written by `verifierFichierStock` and `sauvegarderStock`. -/
def enTete : List Char :=
  "# Fichier de stock\n".toList ++ "# Format: ID| Nom| Quantité| Prix\n".toList

/-- The program's `sauvegarderStock`: the text written to `stock.txt` when the
file can be opened. -/
def sauvegarderStock (stock : List Produit) : List Char :=
  enTete ++ (stock.map ecrireProduit).flatten

/-! ## The operations of the menu -/

/-- The loop `while(scanf("%d", &nouveau.quantite) != 1 || nouveau.quantite < 0) viderBuffer();`
of `ajouterProduit`.  At end of input `scanf` fails and `viderBuffer` consumes
nothing, so the loop never ends: there is no result.  `fuel` bounds the number
of rounds. -/
def lireQuantiteAux : Nat → List Char → Option (Int × List Char)
  | 0, _ => none
  | fuel + 1, e =>
    match e with
    | [] => none
    | _ :: _ =>
      match scanfD e with
      | (some q, r) => if q < 0 then lireQuantiteAux fuel (viderBuffer r) else some (q, r)
      | (none, r) => lireQuantiteAux fuel (viderBuffer r)

/-- The quantity loop of `ajouterProduit`; every round on a non-empty input
consumes a character, so `e.length + 1` rounds are enough. -/
def lireQuantite (e : List Char) : Option (Int × List Char) :=
  lireQuantiteAux (e.length + 1) e

/-- The loop `while(scanf("%f", &nouveau.prix) != 1 || nouveau.prix < PRIX_MIN) viderBuffer();`
of `ajouterProduit`, with the same convention as `lireQuantiteAux`. -/
def lirePrixAux : Nat → List Char → Option (Flottant × List Char)
  | 0, _ => none
  | fuel + 1, e =>
    match e with
    | [] => none
    | _ :: _ =>
      match scanfF e with
      | (some p, r) => if p < PRIX_MIN then lirePrixAux fuel (viderBuffer r) else some (p, r)
      | (none, r) => lirePrixAux fuel (viderBuffer r)

/-- The price loop of `ajouterProduit`. -/
def lirePrix (e : List Char) : Option (Flottant × List Char) :=
  lirePrixAux (e.length + 1) e

/-- One refused round of the quantity loop, as a function of the input the round
starts on: `scanf("%d")` reads, then `viderBuffer` drops the rest of the line. -/
def tourQuantite (e : List Char) : List Char := viderBuffer (scanfD e).2

/-- One refused round of the price loop: `scanf("%f")` reads, then `viderBuffer`
drops the rest of the line. -/
def tourPrix (e : List Char) : List Char := viderBuffer (scanfF e).2

/-- The loop `for(i = 0; i < nombreProduits; i++) if(!strcmp(stock[i].id, id))`:
the first position whose id is `id`. -/
def chercherId (id : List Char) : List Produit → Option Nat
  | [] => none
  | p :: ps => if p.id = id then some 0 else (chercherId id ps).map (fun i => i + 1)

/-- The program's `ajouterProduit`, on the ledger `stock` and the standard
input `e`: the message, the new ledger and the input left. -/
def ajouterProduit (stock : List Produit) (e : List Char) :
    Option (Issue × List Produit × List Char) :=
  if MAX_PRODUITS ≤ stock.length then some (Issue.stockPlein, stock, e)
  else
    let id := (scanfS 19 e).1
    let e2 := viderBuffer (scanfS 19 e).2
    if (chercherId id stock).isSome then some (Issue.idExiste, stock, e2)
    else
      let nom := (lireTexte e2).1
      let e3 := (lireTexte e2).2
      match lireQuantite e3 with
      | none => none
      | some (q, e4) =>
        match lirePrix e4 with
        | none => none
        | some (prix, e5) => some (Issue.ajoute, stock ++ [⟨id, nom, q, prix⟩], viderBuffer e5)

/-- The program's `modifierProduit`.  The buffer the new name is read into is
not initialised, so at end of input the behaviour is undefined (`none`). -/
def modifierProduit (stock : List Produit) (e : List Char) :
    Option (Issue × List Produit × List Char) :=
  let id := (scanfS 19 e).1
  let e2 := viderBuffer (scanfS 19 e).2
  match chercherId id stock with
  | none => some (Issue.nonTrouve, stock, e2)
  | some i =>
    match stock[i]?, fgets 50 e2 with
    | some p, (some ligne, e3) =>
      let buffer := couperFinDeLigne ligne
      let nom := if buffer = ['0'] then p.nom else buffer
      let quantite := match (scanfD e3).1 with
        | some q => if q ≠ 0 then q else p.quantite
        | none => p.quantite
      let e4 := viderBuffer (scanfD e3).2
      let prix := match (scanfF e4).1 with
        | some x => if x ≠ 0 then x else p.prix
        | none => p.prix
      let e5 := viderBuffer (scanfF e4).2
      some (Issue.modifie, stock.set i ⟨p.id, nom, quantite, prix⟩, e5)
    | _, _ => none

/-- The loop `for(j = i; j < nombreProduits - 1; j++) stock[j] = stock[j + 1];`
of `supprimerProduit`, run for at most `fuel` rounds from position `j`. -/
def decaler : Nat → Nat → List Produit → List Produit
  | 0, _, stock => stock
  | fuel + 1, j, stock =>
    if h : j + 1 < stock.length then decaler fuel (j + 1) (stock.set j (stock.get ⟨j + 1, h⟩))
    else stock

/-- The program's `supprimerProduit`: the cells after the one found are moved
one position earlier (at most `stock.length` rounds), then `nombreProduits--`. -/
def supprimerProduit (stock : List Produit) (e : List Char) :
    Issue × List Produit × List Char :=
  let id := (scanfS 19 e).1
  let e2 := viderBuffer (scanfS 19 e).2
  match chercherId id stock with
  | none => (Issue.nonTrouve, stock, e2)
  | some i => (Issue.supprime, (decaler stock.length i stock).dropLast, e2)

/-- What `afficherProduits` prints. -/
inductive Affichage where
  /-- Message "Aucun produit en stock." -/
  | aucunProduit
  /-- The rows (record and `valeur`), then `valeurTotale` and `nombreProduits`. -/
  | tableau (lignes : List (Produit × Flottant)) (valeurTotale : Flottant) (nombre : Nat)
deriving DecidableEq

/-- The `for` loop of `afficherProduits`: the rows printed and the running `valeurTotale`. -/
def afficherBoucle :
    List Produit → List (Produit × Flottant) → Flottant → List (Produit × Flottant) × Flottant
  | [], lignes, total => (lignes, total)
  | p :: ps, lignes, total =>
    let valeur : Flottant := Flottant.deEntier p.quantite * p.prix
    afficherBoucle ps (lignes ++ [(p, valeur)]) (total + valeur)

/-- The program's `afficherProduits`. -/
def afficherProduits (stock : List Produit) : Affichage :=
  if stock.length = 0 then Affichage.aucunProduit
  else
    Affichage.tableau (afficherBoucle stock [] 0).1 (afficherBoucle stock [] 0).2 stock.length

/-- What `rechercherProduit` prints: the rows, and whether the message
"Aucun produit trouve pour ..." follows them. -/
structure Recherche where
  lignes : List (Produit × Flottant)
  aucun : Bool
deriving DecidableEq

/-- The `for` loop of `rechercherProduit`: the rows printed and the flag `trouve`. -/
def rechercherBoucle (terme : List Char) :
    List Produit → List (Produit × Flottant) → Bool → List (Produit × Flottant) × Bool
  | [], lignes, trouve => (lignes, trouve)
  | p :: ps, lignes, trouve =>
    if strstr p.id terme || strstr p.nom terme then
      rechercherBoucle terme ps (lignes ++ [(p, Flottant.deEntier p.quantite * p.prix)]) true
    else rechercherBoucle terme ps lignes trouve

/-- The program's `rechercherProduit`: what is printed, the ledger and the
input left.  The buffer `terme` is zero-initialised, so at end of input the
term is empty. -/
def rechercherProduit (stock : List Produit) (e : List Char) :
    Recherche × List Produit × List Char :=
  let terme := (lireTexte e).1
  let r := rechercherBoucle terme stock [] false
  (⟨r.1, !r.2⟩, stock, (lireTexte e).2)

/-! ## Sequences of operations -/

/-- The ledgers the menu can reach from the empty one: any number of calls of
`ajouterProduit`, `modifierProduit` and `supprimerProduit`, each on an arbitrary
standard input, whatever message ends the call. -/
inductive Atteignable : List Produit → Prop where
  | vide : Atteignable []
  | ajouter {stock stock2 : List Produit} {e reste : List Char} {issue : Issue} :
      Atteignable stock → ajouterProduit stock e = some (issue, stock2, reste) →
      Atteignable stock2
  | modifier {stock stock2 : List Produit} {e reste : List Char} {issue : Issue} :
      Atteignable stock → modifierProduit stock e = some (issue, stock2, reste) →
      Atteignable stock2
  | supprimer {stock stock2 : List Produit} {e reste : List Char} {issue : Issue} :
      Atteignable stock → supprimerProduit stock e = (issue, stock2, reste) →
      Atteignable stock2

/-- One successful call of `ajouterProduit` per standard input of the list, in
order; `none` as soon as a call does not end with "Produit ajoute avec succes!". -/
def ajouterPlusieurs : List (List Char) → List Produit → Option (List Produit)
  | [], stock => some stock
  | e :: es, stock =>
    match ajouterProduit stock e with
    | some (Issue.ajoute, stock2, _) => ajouterPlusieurs es stock2
    | _ => none

/-- The standard inputs of `n` additions: ids `p0`, `p1`, ..., name `Rice`,
quantity 1, price 1. -/
def entreesExemple (n : Nat) : List (List Char) :=
  (List.range n).map (fun i => 'p' :: Nat.toDigits 10 i ++ "\nRice\n1\n1\n".toList)

/-- The ledger of `n` records with ids `p0`, `p1`, ..., name `nom`, quantity 1, price 1. -/
def stockExemple (nom : List Char) (n : Nat) : List Produit :=
  (List.range n).map (fun i => ⟨'p' :: Nat.toDigits 10 i, nom, 1, 1⟩)

/-- The ledger of the scenario: one record `("A1", "Rice", 10, 500.00)`. -/
def stockRiz : List Produit := [⟨"A1".toList, "Rice".toList, 10, 500⟩]

/-! ## The driver loop of `main` -/

/-- What one round of the loop of `main` does once the choice is read. -/
inductive Evenement where
  /-- Choice 1: `ajouterProduit` is called and ends with the message given. -/
  | ajouter (issue : Issue)
  /-- Choice 2: `modifierProduit` is called. -/
  | modifier (issue : Issue)
  /-- Choice 3: `supprimerProduit` is called. -/
  | supprimer (issue : Issue)
  /-- Choice 4: `afficherProduits` is called and prints the listing given. -/
  | afficher (a : Affichage)
  /-- Choice 5: `rechercherProduit` is called. -/
  | rechercher (r : Recherche)
  /-- Choice 6: "Merci d'avoir utilise le système. Au revoir!" -/
  | auRevoir
  /-- The `default` branch: "Choix invalide. Veuillez réessayer." -/
  | choixInvalide
deriving DecidableEq

/-- The value of `choix` after `scanf("%d", &choix)`, whose result `main` does
not test: the number read, or the value the variable had before when no number
could be read (`none` while the variable was never assigned). -/
def lireChoix (choix : Option Int) (e : List Char) : Option Int :=
  match (scanfD e).1 with
  | some v => some v
  | none => choix

/-- One round of the `do ... while(choix != 6)` loop of `main`, from the value
of `choix` left by the round before: the new value of `choix`, what the round
did, the ledger and the input left.  There is no result when the `switch` reads
a variable never assigned or when the operation called has none. -/
def tour (choix : Option Int) (stock : List Produit) (e : List Char) :
    Option (Int × Evenement × List Produit × List Char) :=
  let e1 := viderBuffer (scanfD e).2
  match lireChoix choix e with
  | none => none
  | some c =>
    if c = 1 then
      (ajouterProduit stock e1).map (fun r => (c, Evenement.ajouter r.1, r.2.1, r.2.2))
    else if c = 2 then
      (modifierProduit stock e1).map (fun r => (c, Evenement.modifier r.1, r.2.1, r.2.2))
    else if c = 3 then
      some (c, Evenement.supprimer (supprimerProduit stock e1).1,
        (supprimerProduit stock e1).2.1, (supprimerProduit stock e1).2.2)
    else if c = 4 then some (c, Evenement.afficher (afficherProduits stock), stock, e1)
    else if c = 5 then
      some (c, Evenement.rechercher (rechercherProduit stock e1).1,
        (rechercherProduit stock e1).2.1, (rechercherProduit stock e1).2.2)
    else if c = 6 then some (c, Evenement.auRevoir, stock, e1)
    else some (c, Evenement.choixInvalide, stock, e1)

/-- The loop of `main` run for at most `fuel` rounds: what the rounds did, in
order, the ledger and the input left when choice 6 ends the loop.  There is no
result when a round has none or when the loop is not over after `fuel` rounds. -/
def boucleMenu : Nat → Option Int → List Produit → List Char →
    Option (List Evenement × List Produit × List Char)
  | 0, _, _, _ => none
  | fuel + 1, choix, stock, e =>
    match tour choix stock e with
    | none => none
    | some (c, ev, stock2, e2) =>
      if c = 6 then some ([ev], stock2, e2)
      else
        match boucleMenu fuel (some c) stock2 e2 with
        | none => none
        | some (evs, stock3, e3) => some (ev :: evs, stock3, e3)

/-- The program's `verifierFichierStock`: a missing file (`none`) is created
with the two header lines. -/
def verifierFichierStock (fichier : Option (List Char)) : Option (List Char) :=
  match fichier with
  | none => some enTete
  | some contenu => some contenu

/-- The program's `main` on the file `fichier` and the standard input `e`, its
loop run for at most `fuel` rounds: what the rounds did and the text
`sauvegarderStock` writes at the end. -/
def main (fuel : Nat) (fichier : Option (List Char)) (e : List Char) :
    Option (List Evenement × List Char) :=
  (boucleMenu fuel none (chargerStock (verifierFichierStock fichier) []) e).map
    (fun r => (r.1, sauvegarderStock r.2.1))

/-! ## A stock file with a long comment line -/

/-- A comment line of 255 characters followed, on the same line, by the text of
a record. -/
def longCommentaire : List Char :=
  '#' :: List.replicate 254 'x' ++ "A1|Rice|10|500.00\n".toList

/-! ## Records that fit the C structure -/

/-- The bounds the C type `Produit` puts on a record: an id of at most 19
characters, a name of at most 49 and a quantity that is a 32-bit `int` (the
price is a `Flottant`, which is bounded by its type). -/
def Produit.representable (p : Produit) : Prop :=
  p.id.length ≤ 19 ∧ p.nom.length ≤ 49 ∧ -(2 ^ 31) ≤ p.quantite ∧ p.quantite < 2 ^ 31

instance (p : Produit) : Decidable p.representable := by
  unfold Produit.representable
  infer_instance

/-- The form of the records that are saved and loaded back: an id that is not empty, contains no `|` and no white
space and does not begin with `#`; a name of at most 48 characters that
contains no `|` and no newline. -/
def Produit.bienForme (p : Produit) : Prop :=
  p.id ≠ [] ∧ '|' ∉ p.id ∧ (∀ c ∈ p.id, isspace c = false) ∧ p.id.head? ≠ some '#' ∧
    '|' ∉ p.nom ∧ '\n' ∉ p.nom ∧ p.nom.length ≤ 48

instance (p : Produit) : Decidable p.bienForme := by
  unfold Produit.bienForme
  infer_instance

/-- The record `chargerStock` reads from the line `sauvegarderStock` writes for
`p`: the name begins with the space written after the `|`, the price is the
one read from the two decimals printed. -/
def relu (p : Produit) : Produit :=
  ⟨p.id, ' ' :: p.nom, p.quantite, p.prix.relire⟩

/-- The data line `sauvegarderStock` writes for `p`, without the newline before
it and the newline that ends it. -/
def ligneProduit (p : Produit) : List Char :=
  p.id ++ '|' :: ' ' :: (p.nom ++ '|' :: ' ' :: (ecrireD p.quantite ++
    '|' :: ' ' :: ecrireF2 p.prix))

/-! ## Lemmas on the search of an id -/

theorem chercherId_eq_none_iff (id : List Char) (stock : List Produit) :
    chercherId id stock = none ↔ id ∉ stock.map Produit.id := by
  induction stock with
  | nil => simp [chercherId]
  | cons p ps ih =>
    by_cases h : p.id = id
    · simp [chercherId, h]
    · have h2 : ¬ id = p.id := fun h3 => h h3.symm
      simp [chercherId, h, h2, ih]

theorem chercherId_some {id : List Char} {stock : List Produit} {i : Nat}
    (h : chercherId id stock = some i) :
    ∃ A p B, stock = A ++ p :: B ∧ A.length = i ∧ p.id = id ∧ id ∉ A.map Produit.id := by
  induction stock generalizing i with
  | nil => simp [chercherId] at h
  | cons p ps ih =>
    by_cases hp : p.id = id
    · simp [chercherId, hp] at h
      exact ⟨[], p, ps, by simp, by simpa using h, hp, by simp⟩
    · simp only [chercherId, hp, if_false, Option.map_eq_some'] at h
      obtain ⟨j, hj, rfl⟩ := h
      obtain ⟨A, x, B, hs, hl, hx, hA⟩ := ih hj
      refine ⟨p :: A, x, B, by simp [hs], by simp [hl], hx, ?_⟩
      have h2 : ¬ id = p.id := fun h3 => hp h3.symm
      simpa [h2] using hA

theorem chercherId_append (id : List Char) (A B : List Produit) (p : Produit)
    (hp : p.id = id) (hA : id ∉ A.map Produit.id) :
    chercherId id (A ++ p :: B) = some A.length := by
  induction A with
  | nil => simp [chercherId, hp]
  | cons a A ih =>
    have h1 : ¬ a.id = id := fun h => hA (by simp [h])
    have h2 : id ∉ A.map Produit.id := fun h => hA (by simp at h ⊢; exact Or.inr h)
    simp [chercherId, h1, ih h2]

/-! ## Lemmas on the shifting loop of `supprimerProduit` -/

theorem decaler_append (B : List Produit) :
    ∀ (A : List Produit) (x : Produit) (fuel : Nat), B.length ≤ fuel →
      ∃ z, decaler fuel A.length (A ++ x :: B) = A ++ B ++ [z] := by
  induction B with
  | nil =>
    intro A x fuel _
    refine ⟨x, ?_⟩
    cases fuel <;> simp [decaler]
  | cons y B ih =>
    intro A x fuel hf
    obtain ⟨f, rfl⟩ : ∃ f, fuel = f + 1 := ⟨fuel - 1, by simp at hf; omega⟩
    obtain ⟨z, hz⟩ := ih (A ++ [y]) y f (by simp at hf; omega)
    refine ⟨z, ?_⟩
    have hlt : A.length + 1 < (A ++ x :: y :: B).length := by simp
    have hset : (A ++ x :: y :: B).set A.length ((A ++ x :: y :: B).get ⟨A.length + 1, hlt⟩)
        = (A ++ [y]) ++ y :: B := by
      simp [List.getElem_append_right]
    rw [decaler, dif_pos hlt, hset]
    simpa using hz

theorem decaler_dropLast (A B : List Produit) (x : Produit) :
    (decaler (A ++ x :: B).length A.length (A ++ x :: B)).dropLast = A ++ B := by
  obtain ⟨z, hz⟩ := decaler_append B A x (A ++ x :: B).length (by simp; omega)
  rw [hz, List.dropLast_concat]

theorem eraseIdx_append_cons (A B : List Produit) (x : Produit) :
    (A ++ x :: B).eraseIdx A.length = A ++ B := by
  induction A with
  | nil => rfl
  | cons a A ih => simpa using ih


/-! ## The bounds on the number of rounds are large enough -/

theorem viderBuffer_length (r : List Char) : (viderBuffer r).length ≤ r.length - 1 := by
  induction r with
  | nil => simp [viderBuffer]
  | cons c cs ih =>
    by_cases hc : c = '\n'
    · simp [viderBuffer, hc]
    · simp only [viderBuffer, hc, if_false, List.length_cons, Nat.add_sub_cancel]
      omega

theorem lireLigne_length (k : Nat) :
    ∀ e : List Char, (lireLigne k e).2.length ≤ e.length := by
  induction k with
  | zero => intro e; simp [lireLigne]
  | succ k ih =>
    intro e
    cases e with
    | nil => simp [lireLigne]
    | cons c cs =>
      by_cases hc : c = '\n'
      · simp [lireLigne, hc]
      · simp only [lireLigne, hc, if_false, List.length_cons]
        exact Nat.le_succ_of_le (ih cs)

theorem fgets_length (c : Char) (cs : List Char) :
    (fgets 256 (c :: cs)).2.length ≤ cs.length := by
  by_cases hc : c = '\n'
  · simp [fgets, lireLigne, hc]
  · simp only [fgets, lireLigne, hc, if_false]
    exact lireLigne_length _ cs

/-- Any two bounds that are at least the length of the file give the same ledger. -/
theorem chargerLignes_fuel (f : Nat) :
    ∀ (g : Nat) (contenu : List Char) (stock : List Produit),
      contenu.length ≤ f → contenu.length ≤ g →
      chargerLignes f contenu stock = chargerLignes g contenu stock := by
  induction f with
  | zero =>
    intro g contenu stock hf _
    have : contenu = [] := List.length_eq_zero.mp (Nat.le_zero.mp hf)
    subst this
    cases g <;> simp [chargerLignes, fgets]
  | succ f ih =>
    intro g contenu stock hf hg
    cases contenu with
    | nil => cases g <;> simp [chargerLignes, fgets]
    | cons c cs =>
      obtain ⟨g2, rfl⟩ : ∃ g2, g = g2 + 1 := ⟨g - 1, by simp at hg; omega⟩
      have hlen := fgets_length c cs
      simp only [List.length_cons, Nat.add_le_add_iff_right] at hf hg
      rcases hfg : fgets 256 (c :: cs) with ⟨_ | ligne, reste⟩
      · simp [chargerLignes, hfg]
      · rw [hfg] at hlen
        simp only at hlen
        simp only [chargerLignes, hfg]
        rw [ih g2 reste stock (by omega) (by omega)]
        cases sscanfLigne ligne with
        | none => rfl
        | some p => simp only; rw [ih g2 reste (stock ++ [p]) (by omega) (by omega)]

/-- With any bound that is at least the length of the file, the loop of
`chargerStock` gives the ledger `chargerStock` gives. -/
theorem chargerStock_fuel (f : Nat) (contenu : List Char) (stock : List Produit)
    (h : contenu.length ≤ f) :
    chargerLignes f contenu stock = chargerStock (some contenu) stock :=
  chargerLignes_fuel f contenu.length contenu stock h (Nat.le_refl _)

theorem lireSigne_length (s : List Char) : (lireSigne s).2.length ≤ s.length := by
  cases s with
  | nil => simp [lireSigne]
  | cons c cs =>
    simp only [lireSigne]
    split_ifs <;> simp

theorem dropWhile_length (p : Char → Bool) (s : List Char) :
    (s.dropWhile p).length ≤ s.length :=
  (List.dropWhile_suffix p).length_le

theorem scanfD_length (e : List Char) : (scanfD e).2.length ≤ e.length := by
  have h1 := dropWhile_length isspace e
  have h2 := lireSigne_length (e.dropWhile isspace)
  have h3 := dropWhile_length Char.isDigit (lireSigne (e.dropWhile isspace)).2
  unfold scanfD
  simp only
  split_ifs <;> simp only <;> omega

theorem lireExposant_length (min maj : Char) (s : List Char) :
    (lireExposant min maj s).2.length ≤ s.length := by
  cases s with
  | nil => simp [lireExposant]
  | cons c cs =>
    have h2 := lireSigne_length cs
    have h3 := dropWhile_length Char.isDigit (lireSigne cs).2
    by_cases h : c = min ∨ c = maj
    · simp only [lireExposant, if_pos h, List.length_cons]
      omega
    · simp only [lireExposant, if_neg h]
      exact Nat.le_refl _

theorem lireMantisse_length (chiffre : Char → Bool) (t : List Char) :
    (lireMantisse chiffre t).2.2.length ≤ t.length := by
  have h1 := dropWhile_length chiffre t
  unfold lireMantisse
  cases hd : t.dropWhile chiffre with
  | nil => simp
  | cons c cs =>
    rw [hd] at h1
    have h2 := dropWhile_length chiffre cs
    simp only [List.length_cons] at h1
    simp only
    split_ifs
    · simp only
      omega
    · simp only [List.length_cons]
      omega

theorem lireMot_length (t r : List Char) (v : Option Flottant) (h : lireMot t = some (v, r)) :
    r.length ≤ t.length := by
  unfold lireMot at h
  split_ifs at h <;> simp only [Option.some.injEq, Prod.mk.injEq] at h <;>
    (rw [← h.2]; simp only [List.length_drop]; omega)

theorem lireDecimal_length (neg : Bool) (t : List Char) :
    (lireDecimal neg t).2.length ≤ t.length := by
  have h1 := lireMantisse_length Char.isDigit t
  have h2 := lireExposant_length 'e' 'E' (lireMantisse Char.isDigit t).2.2
  unfold lireDecimal
  simp only
  by_cases h : (lireMantisse Char.isDigit t).1 = [] ∧ (lireMantisse Char.isDigit t).2.1 = []
  · rw [if_pos h]
    exact h1
  · rw [if_neg h]
    simp only
    omega

theorem lireHexa_length (neg : Bool) (t : List Char) :
    (lireHexa neg t).2.length ≤ t.length := by
  have h1 := lireMantisse_length estHexa t
  have h2 := lireExposant_length 'p' 'P' (lireMantisse estHexa t).2.2
  unfold lireHexa
  simp only
  by_cases h : (lireMantisse estHexa t).1 = [] ∧ (lireMantisse estHexa t).2.1 = []
  · rw [if_pos h]
    exact h1
  · rw [if_neg h]
    simp only
    omega

theorem scanfF_length (e : List Char) : (scanfF e).2.length ≤ e.length := by
  have h1 := dropWhile_length isspace e
  have h2 := lireSigne_length (e.dropWhile isspace)
  unfold scanfF
  simp only
  cases hm : lireMot (lireSigne (e.dropWhile isspace)).2 with
  | some vr =>
    obtain ⟨v, r⟩ := vr
    have h3 := lireMot_length _ r v hm
    cases v with
    | none => simp only; omega
    | some x => cases x <;> simp only <;> omega
  | none =>
    simp only
    split_ifs
    · have h3 := lireHexa_length (lireSigne (e.dropWhile isspace)).1
        ((lireSigne (e.dropWhile isspace)).2.drop 2)
      simp only [List.length_drop] at h3
      omega
    · have h3 := lireDecimal_length (lireSigne (e.dropWhile isspace)).1
        (lireSigne (e.dropWhile isspace)).2
      omega

/-- Any two bounds larger than the length of the input give the same result. -/
theorem lireQuantiteAux_fuel (f : Nat) :
    ∀ (g : Nat) (e : List Char), e.length < f → e.length < g →
      lireQuantiteAux f e = lireQuantiteAux g e := by
  induction f with
  | zero => intro g e hf; omega
  | succ f ih =>
    intro g e hf hg
    obtain ⟨g2, rfl⟩ : ∃ g2, g = g2 + 1 := ⟨g - 1, by omega⟩
    cases e with
    | nil => simp [lireQuantiteAux]
    | cons c cs =>
      have h1 := scanfD_length (c :: cs)
      have h2 := viderBuffer_length (scanfD (c :: cs)).2
      simp only [List.length_cons] at hf hg h1
      rcases hs : scanfD (c :: cs) with ⟨_ | v, r⟩
      · rw [hs] at h1 h2
        simp only [lireQuantiteAux, hs]
        exact ih g2 _ (by simp only at h1 h2; omega) (by simp only at h1 h2; omega)
      · rw [hs] at h1 h2
        simp only [lireQuantiteAux, hs]
        split_ifs
        · exact ih g2 _ (by simp only at h1 h2; omega) (by simp only at h1 h2; omega)
        · rfl

/-- With any bound larger than the length of the input, the quantity loop gives
the result of `lireQuantite`. -/
theorem lireQuantite_fuel (f : Nat) (e : List Char) (h : e.length < f) :
    lireQuantiteAux f e = lireQuantite e :=
  lireQuantiteAux_fuel f (e.length + 1) e h (Nat.lt_succ_self _)

/-- Any two bounds larger than the length of the input give the same result. -/
theorem lirePrixAux_fuel (f : Nat) :
    ∀ (g : Nat) (e : List Char), e.length < f → e.length < g →
      lirePrixAux f e = lirePrixAux g e := by
  induction f with
  | zero => intro g e hf; omega
  | succ f ih =>
    intro g e hf hg
    obtain ⟨g2, rfl⟩ : ∃ g2, g = g2 + 1 := ⟨g - 1, by omega⟩
    cases e with
    | nil => simp [lirePrixAux]
    | cons c cs =>
      have h1 := scanfF_length (c :: cs)
      have h2 := viderBuffer_length (scanfF (c :: cs)).2
      simp only [List.length_cons] at hf hg h1
      simp only [lirePrixAux]
      generalize scanfF (c :: cs) = res at h1 h2
      obtain ⟨o, r⟩ := res
      cases o with
      | none => exact ih g2 _ (by simp only at h1 h2; omega) (by simp only at h1 h2; omega)
      | some v =>
        simp only
        split_ifs
        · exact ih g2 _ (by simp only at h1 h2; omega) (by simp only at h1 h2; omega)
        · rfl


/-- With any bound larger than the length of the input, the price loop gives the
result of `lirePrix`. -/
theorem lirePrix_fuel (f : Nat) (e : List Char) (h : e.length < f) :
    lirePrixAux f e = lirePrix e :=
  lirePrixAux_fuel f (e.length + 1) e h (Nat.lt_succ_self _)

/-! ## The re-prompt loops of `ajouterProduit` -/

theorem lireQuantiteAux_nonneg (fuel : Nat) :
    ∀ (e : List Char) (q : Int) (r : List Char),
      lireQuantiteAux fuel e = some (q, r) → 0 ≤ q := by
  induction fuel with
  | zero => intro e q r h; simp [lireQuantiteAux] at h
  | succ f ih =>
    intro e q r h
    cases e with
    | nil => simp [lireQuantiteAux] at h
    | cons c cs =>
      rcases hs : scanfD (c :: cs) with ⟨_ | v, r2⟩
      · simp only [lireQuantiteAux, hs] at h
        exact ih _ _ _ h
      · simp only [lireQuantiteAux, hs] at h
        by_cases hv : v < 0
        · rw [if_pos hv] at h
          exact ih _ _ _ h
        · rw [if_neg hv] at h
          simp only [Option.some.injEq, Prod.mk.injEq] at h
          omega

theorem lirePrixAux_min (fuel : Nat) :
    ∀ (e : List Char) (p : Flottant) (r : List Char),
      lirePrixAux fuel e = some (p, r) → ¬ p < PRIX_MIN := by
  induction fuel with
  | zero => intro e p r h; simp [lirePrixAux] at h
  | succ f ih =>
    intro e p r h
    cases e with
    | nil => simp [lirePrixAux] at h
    | cons c cs =>
      rcases hs : scanfF (c :: cs) with ⟨_ | v, r2⟩
      · simp only [lirePrixAux, hs] at h
        exact ih _ _ _ h
      · simp only [lirePrixAux, hs] at h
        by_cases hv : v < PRIX_MIN
        · rw [if_pos hv] at h
          exact ih _ _ _ h
        · rw [if_neg hv] at h
          simp only [Option.some.injEq, Prod.mk.injEq] at h
          rw [← h.1]
          exact hv

/-! ## The re-prompt loops, round by round -/

/-- The quantity loop with its first round unrolled: an entry that `scanf`
stores and that is not negative ends the loop; any other entry is dropped up to
the end of its line and the loop starts again on what follows. -/
theorem lireQuantite_tour (e : List Char) :
    lireQuantite e
      = match scanfD e with
        | (some q, r) => if q < 0 then lireQuantite (tourQuantite e) else some (q, r)
        | (none, _) => lireQuantite (tourQuantite e) := by
  cases e with
  | nil => rfl
  | cons c cs =>
    have h1 := scanfD_length (c :: cs)
    have h2 := viderBuffer_length (scanfD (c :: cs)).2
    simp only [List.length_cons] at h1
    unfold lireQuantite tourQuantite
    simp only [lireQuantiteAux, List.length_cons]
    rcases hs : scanfD (c :: cs) with ⟨_ | v, r⟩
    · rw [hs] at h1 h2
      simp only at h1 h2 ⊢
      exact lireQuantiteAux_fuel (cs.length + 1) ((viderBuffer r).length + 1) (viderBuffer r)
        (by omega) (by omega)
    · rw [hs] at h1 h2
      simp only at h1 h2 ⊢
      split_ifs
      · exact lireQuantiteAux_fuel (cs.length + 1) ((viderBuffer r).length + 1) (viderBuffer r)
          (by omega) (by omega)
      · rfl

/-- After `k` refused entries, an entry that `scanf` stores and that is not
negative is what the quantity loop delivers. -/
theorem lireQuantite_tours (q : Int) (r : List Char) (k : Nat) :
    ∀ e : List Char,
      (∀ j < k, ∀ v, (scanfD (tourQuantite^[j] e)).1 = some v → v < 0) →
      scanfD (tourQuantite^[k] e) = (some q, r) → 0 ≤ q →
      lireQuantite e = some (q, r) := by
  induction k with
  | zero =>
    intro e _ hq hq0
    rw [lireQuantite_tour]
    simp only [Function.iterate_zero, id_eq] at hq
    rw [hq]
    simp only [if_neg (not_lt.mpr hq0)]
  | succ k ih =>
    intro e hr hq hq0
    have h0 := hr 0 (Nat.succ_pos k)
    simp only [Function.iterate_zero, id_eq] at h0
    have hrec : lireQuantite (tourQuantite e) = some (q, r) := by
      refine ih (tourQuantite e) ?_ ?_ hq0
      · intro j hj v hv
        exact hr (j + 1) (Nat.succ_lt_succ hj) v (by rwa [Function.iterate_succ_apply])
      · rwa [Function.iterate_succ_apply] at hq
    rw [lireQuantite_tour]
    rcases hs : scanfD e with ⟨_ | v, r2⟩
    · simp only
      exact hrec
    · simp only
      rw [if_pos (h0 v (by rw [hs])), hrec]

/-- The price loop with its first round unrolled: an entry that `scanf` stores
and for which `prix < PRIX_MIN` is false ends the loop; any other entry is
dropped up to the end of its line and the loop starts again on what follows. -/
theorem lirePrix_tour (e : List Char) :
    lirePrix e
      = match scanfF e with
        | (some p, r) => if p < PRIX_MIN then lirePrix (tourPrix e) else some (p, r)
        | (none, _) => lirePrix (tourPrix e) := by
  cases e with
  | nil => decide!
  | cons c cs =>
    have h1 := scanfF_length (c :: cs)
    have h2 := viderBuffer_length (scanfF (c :: cs)).2
    simp only [List.length_cons] at h1
    unfold lirePrix tourPrix
    simp only [lirePrixAux, List.length_cons]
    generalize scanfF (c :: cs) = res at h1 h2
    obtain ⟨o, r⟩ := res
    cases o with
    | none =>
      simp only at h1 h2 ⊢
      exact lirePrixAux_fuel (cs.length + 1) ((viderBuffer r).length + 1) (viderBuffer r)
        (by omega) (by omega)
    | some v =>
      simp only at h1 h2 ⊢
      split_ifs
      · exact lirePrixAux_fuel (cs.length + 1) ((viderBuffer r).length + 1) (viderBuffer r)
          (by omega) (by omega)
      · rfl

/-- After `m` refused entries, an entry that `scanf` stores and for which
`prix < PRIX_MIN` is false is what the price loop delivers. -/
theorem lirePrix_tours (p : Flottant) (r : List Char) (m : Nat) :
    ∀ e : List Char,
      (∀ j < m, ∀ v, (scanfF (tourPrix^[j] e)).1 = some v → v < PRIX_MIN) →
      scanfF (tourPrix^[m] e) = (some p, r) → ¬ p < PRIX_MIN →
      lirePrix e = some (p, r) := by
  induction m with
  | zero =>
    intro e _ hp hp0
    rw [lirePrix_tour]
    simp only [Function.iterate_zero, id_eq] at hp
    rw [hp]
    simp only [if_neg hp0]
  | succ m ih =>
    intro e hr hp hp0
    have h0 := hr 0 (Nat.succ_pos m)
    simp only [Function.iterate_zero, id_eq] at h0
    have hrec : lirePrix (tourPrix e) = some (p, r) := by
      refine ih (tourPrix e) ?_ ?_ hp0
      · intro j hj v hv
        exact hr (j + 1) (Nat.succ_lt_succ hj) v (by rwa [Function.iterate_succ_apply])
      · rwa [Function.iterate_succ_apply] at hp
    rw [lirePrix_tour]
    rcases hs : scanfF e with ⟨_ | v, r2⟩
    · simp only
      exact hrec
    · simp only
      rw [if_pos (h0 v (by rw [hs])), hrec]

/-! ## What each operation can do to the ledger -/

theorem ajouterProduit_cas {stock stock2 : List Produit} {e reste : List Char} {issue : Issue}
    (h : ajouterProduit stock e = some (issue, stock2, reste)) :
    (issue = Issue.stockPlein ∧ stock2 = stock) ∨ (issue = Issue.idExiste ∧ stock2 = stock) ∨
      (issue = Issue.ajoute ∧
        ∃ nom q prix, stock2 = stock ++ [⟨(scanfS 19 e).1, nom, q, prix⟩] ∧
          stock.length < MAX_PRODUITS ∧ (scanfS 19 e).1 ∉ stock.map Produit.id ∧
          0 ≤ q ∧ ¬ prix < PRIX_MIN) := by
  unfold ajouterProduit at h
  by_cases hfull : MAX_PRODUITS ≤ stock.length
  · rw [if_pos hfull] at h
    simp only [Option.some.injEq, Prod.mk.injEq] at h
    exact Or.inl ⟨h.1.symm, h.2.1.symm⟩
  · rw [if_neg hfull] at h
    simp only at h
    by_cases hid : (chercherId (scanfS 19 e).1 stock).isSome = true
    · rw [if_pos hid] at h
      simp only [Option.some.injEq, Prod.mk.injEq] at h
      exact Or.inr (Or.inl ⟨h.1.symm, h.2.1.symm⟩)
    · rw [if_neg hid] at h
      have hnone : chercherId (scanfS 19 e).1 stock = none := by
        simpa using hid
      cases hq : lireQuantite (lireTexte (viderBuffer (scanfS 19 e).2)).2 with
      | none => simp [hq] at h
      | some qr =>
        obtain ⟨q, e4⟩ := qr
        cases hp : lirePrix e4 with
        | none => simp [hq, hp] at h
        | some pr =>
          obtain ⟨prix, e5⟩ := pr
          simp only [hq, hp, Option.some.injEq, Prod.mk.injEq] at h
          refine Or.inr (Or.inr ⟨h.1.symm, _, q, prix, h.2.1.symm, by omega,
            (chercherId_eq_none_iff _ _).mp hnone, ?_, ?_⟩)
          · exact lireQuantiteAux_nonneg _ _ _ _ hq
          · exact lirePrixAux_min _ _ _ _ hp

theorem modifierProduit_ids {stock stock2 : List Produit} {e reste : List Char} {issue : Issue}
    (h : modifierProduit stock e = some (issue, stock2, reste)) :
    stock2.map Produit.id = stock.map Produit.id := by
  unfold modifierProduit at h
  simp only at h
  cases hc : chercherId (scanfS 19 e).1 stock with
  | none =>
    simp only [hc, Option.some.injEq, Prod.mk.injEq] at h
    rw [h.2.1]
  | some i =>
    simp only [hc] at h
    cases hg : stock[i]? with
    | none => simp [hg] at h
    | some p =>
      rcases hf : fgets 50 (viderBuffer (scanfS 19 e).2) with ⟨_ | ligne, e3⟩
      · simp [hg, hf] at h
      · simp only [hg, hf, Option.some.injEq, Prod.mk.injEq] at h
        rw [← h.2.1, List.map_set]
        simp only
        obtain ⟨hi, hg⟩ := List.getElem?_eq_some.mp hg
        apply List.ext_getElem
        · simp
        · intro n h1 h2
          rw [List.getElem_set]
          split
          · rename_i hin
            subst hin
            simp [hg]
          · rfl

theorem supprimerProduit_cas {stock stock2 : List Produit} {e reste : List Char} {issue : Issue}
    (h : supprimerProduit stock e = (issue, stock2, reste)) :
    stock2 = stock ∨ ∃ i, stock2 = stock.eraseIdx i := by
  unfold supprimerProduit at h
  simp only at h
  cases hc : chercherId (scanfS 19 e).1 stock with
  | none =>
    simp only [hc, Prod.mk.injEq] at h
    exact Or.inl h.2.1.symm
  | some i =>
    simp only [hc, Prod.mk.injEq] at h
    obtain ⟨A, p, B, hs, hl, _, _⟩ := chercherId_some hc
    refine Or.inr ⟨i, ?_⟩
    rw [← h.2.1, hs, ← hl, decaler_dropLast, eraseIdx_append_cons]

theorem atteignable_nodup {stock : List Produit} (h : Atteignable stock) :
    (stock.map Produit.id).Nodup := by
  induction h with
  | vide => simp
  | ajouter _ hop ih =>
    rcases ajouterProduit_cas hop with ⟨_, rfl⟩ | ⟨_, rfl⟩ | ⟨_, nom, q, prix, rfl, _, hid, _, _⟩
    · exact ih
    · exact ih
    · rw [List.map_append, List.nodup_append]
      refine ⟨ih, by simp, ?_⟩
      intro a ha hb
      simp only [List.map_cons, List.map_nil, List.mem_singleton] at hb
      exact hid (hb ▸ ha)
  | modifier _ hop ih =>
    rw [modifierProduit_ids hop]
    exact ih
  | supprimer _ hop ih =>
    rcases supprimerProduit_cas hop with rfl | ⟨i, rfl⟩
    · exact ih
    · exact ih.sublist ((List.eraseIdx_sublist _ _).map _)

/-! ## The claims -/

/-- C1. Save then load does not give back the ledger built by one addition: the
record `("A1", "Rice", 10, 500.00)` added on the empty ledger is written as the
line `A1| Rice| 10| 500.00` and is loaded with the name `" Rice"`, the space
written after the `|` being read as part of the name. -/
theorem sauvegarder_puis_charger_riz :
    ajouterProduit [] "A1\nRice\n10\n500.00\n".toList = some (Issue.ajoute, stockRiz, []) ∧
    sauvegarderStock stockRiz = enTete ++ "\nA1| Rice| 10| 500.00\n".toList ∧
    chargerStock (some (sauvegarderStock stockRiz)) []
      = [⟨"A1".toList, " Rice".toList, 10, 500⟩] ∧
    chargerStock (some (sauvegarderStock stockRiz)) [] ≠ stockRiz := by
  decide!

/-- C2. In every ledger reachable from the empty one by calls of `ajouterProduit`,
`modifierProduit` and `supprimerProduit` on arbitrary inputs, two records at
different positions have different ids. -/
theorem ids_distincts (stock : List Produit) (h : Atteignable stock) (i j : Nat)
    (p q : Produit) (hi : stock[i]? = some p) (hj : stock[j]? = some q) (hij : i ≠ j) :
    p.id ≠ q.id := by
  have hnd := atteignable_nodup h
  obtain ⟨hi1, hi2⟩ := List.getElem?_eq_some.mp hi
  obtain ⟨hj1, hj2⟩ := List.getElem?_eq_some.mp hj
  intro hpq
  apply hij
  have h1 : (stock.map Produit.id)[i]? = (stock.map Produit.id)[j]? := by
    simp [hi, hj, hpq]
  have hi3 : i < (stock.map Produit.id).length := by simpa using hi1
  have hj3 : j < (stock.map Produit.id).length := by simpa using hj1
  rw [List.getElem?_eq_getElem hi3, List.getElem?_eq_getElem hj3] at h1
  exact (List.Nodup.getElem_inj_iff hnd).mp (Option.some.inj h1)

theorem ids_distincts_witness :
    Atteignable [⟨"A1".toList, "Rice".toList, 10, 500⟩, ⟨"B2".toList, "Beans".toList, 5, 300⟩] ∧
    ("A1".toList : List Char) ≠ "B2".toList :=
  have h1 : ajouterProduit [] "A1\nRice\n10\n500.00\n".toList
      = some (Issue.ajoute, [⟨"A1".toList, "Rice".toList, 10, 500⟩], []) := by decide!
  have h2 : ajouterProduit [⟨"A1".toList, "Rice".toList, 10, 500⟩] "B2\nBeans\n5\n300\n".toList
      = some (Issue.ajoute,
          [⟨"A1".toList, "Rice".toList, 10, 500⟩, ⟨"B2".toList, "Beans".toList, 5, 300⟩], []) := by
    decide!
  have h3 : Atteignable
      [⟨"A1".toList, "Rice".toList, 10, 500⟩, ⟨"B2".toList, "Beans".toList, 5, 300⟩] :=
    Atteignable.ajouter (Atteignable.ajouter Atteignable.vide h1) h2
  ⟨h3, ids_distincts _ h3 0 1 ⟨"A1".toList, "Rice".toList, 10, 500⟩
    ⟨"B2".toList, "Beans".toList, 5, 300⟩ (by decide!) (by decide!) (by decide)⟩

/-- C3. On a ledger of exactly `MAX_PRODUITS` (100) records `ajouterProduit` ends
with "stock plein" whatever the input, consumes no input and leaves the ledger
unchanged; in particular this is so for the ledger left by 100 successful
additions made from the empty ledger. -/
theorem ajouterProduit_plein (stock : List Produit) (e : List Char) :
    (stock.length = MAX_PRODUITS →
      ajouterProduit stock e = some (Issue.stockPlein, stock, e)) ∧
    (∀ entrees : List (List Char), entrees.length = MAX_PRODUITS →
      ajouterPlusieurs entrees [] = some stock →
      ajouterProduit stock e = some (Issue.stockPlein, stock, e)) := by
  have h1 : stock.length = MAX_PRODUITS →
      ajouterProduit stock e = some (Issue.stockPlein, stock, e) := by
    intro h
    unfold ajouterProduit
    rw [if_pos (by omega)]
  refine ⟨h1, ?_⟩
  intro entrees hn hs
  apply h1
  have key : ∀ (es : List (List Char)) (s s2 : List Produit),
      ajouterPlusieurs es s = some s2 → s2.length = s.length + es.length := by
    intro es
    induction es with
    | nil => intro s s2 h; simp [ajouterPlusieurs] at h; simp [h]
    | cons x xs ih =>
      intro s s2 h
      rcases ha : ajouterProduit s x with _ | ⟨issue, s3, r⟩
      · simp [ajouterPlusieurs, ha] at h
      · cases issue <;> simp only [ajouterPlusieurs, ha] at h <;> try exact absurd h (by simp)
        have h3 := ih _ _ h
        rcases ajouterProduit_cas ha with ⟨h4, _⟩ | ⟨h4, _⟩ | ⟨_, nom, q, prix, rfl, _, _, _, _⟩
        · exact absurd h4 (by simp)
        · exact absurd h4 (by simp)
        · simp at h3 ⊢
          omega
  have := key entrees [] stock hs
  simpa [hn] using this

set_option maxRecDepth 100000 in
theorem ajouterProduit_plein_witness :
    ajouterProduit (List.replicate 100 ⟨"A1".toList, "Rice".toList, 10, 500⟩)
        "B2\nBeans\n5\n300\n".toList
      = some (Issue.stockPlein, List.replicate 100 ⟨"A1".toList, "Rice".toList, 10, 500⟩,
          "B2\nBeans\n5\n300\n".toList) ∧
    ajouterProduit (stockExemple "Rice".toList 100) "B2\nBeans\n5\n300\n".toList
      = some (Issue.stockPlein, stockExemple "Rice".toList 100, "B2\nBeans\n5\n300\n".toList) :=
  ⟨(ajouterProduit_plein _ _).1 (by decide),
   (ajouterProduit_plein _ _).2 (entreesExemple 100) (by decide) (by decide!)⟩

/-- C4. On a ledger whose ids are pairwise distinct, `supprimerProduit` given the
id of the record at position `k` ends with "supprime" and leaves the ledger
without that record: one record fewer, the records before `k` at their
positions, the records after `k` one position earlier. -/
theorem supprimerProduit_stable (stock : List Produit) (e : List Char) (k : Nat)
    (p : Produit) (hk : stock[k]? = some p) (hnd : (stock.map Produit.id).Nodup)
    (hid : (scanfS 19 e).1 = p.id) :
    supprimerProduit stock e
      = (Issue.supprime, stock.eraseIdx k, viderBuffer (scanfS 19 e).2) ∧
    (stock.eraseIdx k).length + 1 = stock.length ∧
    (∀ i, i < k → (stock.eraseIdx k)[i]? = stock[i]?) ∧
    (∀ i, k ≤ i → (stock.eraseIdx k)[i]? = stock[i + 1]?) := by
  obtain ⟨hk1, hk2⟩ := List.getElem?_eq_some.mp hk
  have hsplit : stock = stock.take k ++ p :: stock.drop (k + 1) := by
    rw [← hk2]
    simp
  have hA : (stock.take k).length = k := by simp; omega
  have hnotin : p.id ∉ (stock.take k).map Produit.id := by
    rw [hsplit, List.map_append, List.map_cons] at hnd
    have := (List.nodup_append.mp hnd).2.2
    intro hin
    exact this hin (by simp)
  have hc : chercherId (scanfS 19 e).1 stock = some k := by
    rw [hid]
    conv => lhs; rw [hsplit]
    rw [chercherId_append p.id _ _ p rfl hnotin, hA]
  refine ⟨?_, ?_, ?_, ?_⟩
  · unfold supprimerProduit
    simp only [hc]
    have hd : (decaler stock.length k stock).dropLast = stock.eraseIdx k := by
      have h1 := decaler_dropLast (stock.take k) (stock.drop (k + 1)) p
      have h2 := eraseIdx_append_cons (stock.take k) (stock.drop (k + 1)) p
      rw [← hsplit, hA] at h1 h2
      rw [h1, h2]
    rw [hd]
  · rw [List.length_eraseIdx]
    simp [hk1]
    omega
  · intro i hi
    rw [List.getElem?_eraseIdx]
    simp [hi]
  · intro i hi
    rw [List.getElem?_eraseIdx]
    simp [Nat.not_lt.mpr hi]

theorem supprimerProduit_stable_witness :
    supprimerProduit (stockExemple "Rice".toList 3) "p1\n".toList
      = (Issue.supprime, [⟨"p0".toList, "Rice".toList, 1, 1⟩, ⟨"p2".toList, "Rice".toList, 1, 1⟩],
          []) :=
  (supprimerProduit_stable (stockExemple "Rice".toList 3) "p1\n".toList 1
    ⟨"p1".toList, "Rice".toList, 1, 1⟩ (by decide!) (by decide) (by decide)).1


/-! ## Lemmas on the search by term -/

theorem strstr_iff (h t : List Char) : strstr h t = true ↔ t <:+: h := by
  induction h with
  | nil => simp [strstr, List.isEmpty_iff]
  | cons c cs ih =>
    rw [strstr, Bool.or_eq_true, ih, List.isPrefixOf_iff_prefix, List.infix_cons_iff]

theorem rechercherBoucle_eq (terme : List Char) (stock : List Produit) :
    ∀ (lignes : List (Produit × Flottant)) (trouve : Bool),
      rechercherBoucle terme stock lignes trouve
        = (lignes ++ (stock.filter (fun r => strstr r.id terme || strstr r.nom terme)).map
              (fun r => (r, Flottant.deEntier r.quantite * r.prix)),
            trouve || stock.any (fun r => strstr r.id terme || strstr r.nom terme)) := by
  induction stock with
  | nil => intro lignes trouve; simp [rechercherBoucle]
  | cons p ps ih =>
    intro lignes trouve
    by_cases hm : (strstr p.id terme || strstr p.nom terme) = true
    · rw [rechercherBoucle, if_pos hm, ih]
      simp [List.filter_cons, hm]
    · rw [rechercherBoucle, if_neg hm, ih]
      simp only [Bool.not_eq_true] at hm
      simp [List.filter_cons, hm]


/-- C5. The records `rechercherProduit` prints are, once each and in ledger
order, the records whose id or whose name contains the term read (the empty
term included, which every record contains); "Aucun produit trouve" is printed
exactly when no record does; the ledger is unchanged. -/
theorem rechercherProduit_correct (stock : List Produit) (e : List Char) :
    (rechercherProduit stock e).1.lignes.map Prod.fst
      = stock.filter (fun r => decide ((lireTexte e).1 <:+: r.id ∨ (lireTexte e).1 <:+: r.nom)) ∧
    ((rechercherProduit stock e).1.aucun = true ↔
      ∀ r ∈ stock, ¬ ((lireTexte e).1 <:+: r.id ∨ (lireTexte e).1 <:+: r.nom)) ∧
    (rechercherProduit stock e).2.1 = stock := by
  have hf : (fun r : Produit => strstr r.id (lireTexte e).1 || strstr r.nom (lireTexte e).1)
      = (fun r => decide ((lireTexte e).1 <:+: r.id ∨ (lireTexte e).1 <:+: r.nom)) := by
    funext r
    rw [Bool.eq_iff_iff]
    simp [strstr_iff]
  refine ⟨?_, ?_, rfl⟩
  · simp only [rechercherProduit, rechercherBoucle_eq, hf]
    simp [Function.comp_def]
  · simp only [rechercherProduit, rechercherBoucle_eq, hf]
    simp

/-- C6. When the id read equals the id of no record, `modifierProduit` and
`supprimerProduit` both end with "Produit non trouve!" and leave the ledger as
it was, whatever input follows the id. -/
theorem non_trouve_sans_effet (stock : List Produit) (e : List Char)
    (h : (scanfS 19 e).1 ∉ stock.map Produit.id) :
    modifierProduit stock e = some (Issue.nonTrouve, stock, viderBuffer (scanfS 19 e).2) ∧
    supprimerProduit stock e = (Issue.nonTrouve, stock, viderBuffer (scanfS 19 e).2) := by
  have hc := (chercherId_eq_none_iff _ _).mpr h
  constructor
  · unfold modifierProduit
    simp only [hc]
  · unfold supprimerProduit
    simp only [hc]

theorem non_trouve_sans_effet_witness :
    modifierProduit stockRiz "Z9\nBeans\n5\n300\n".toList
      = some (Issue.nonTrouve, stockRiz, "Beans\n5\n300\n".toList) ∧
    supprimerProduit stockRiz "Z9\nBeans\n5\n300\n".toList
      = (Issue.nonTrouve, stockRiz, "Beans\n5\n300\n".toList) :=
  non_trouve_sans_effet stockRiz "Z9\nBeans\n5\n300\n".toList (by decide)

/-- C7. On a ledger of fewer than 100 records, when the id read is the id of a
record of the ledger, `ajouterProduit` ends with "Un produit avec cet ID existe
deja!" and leaves the ledger as it was, whatever input follows the id. -/
theorem ajouterProduit_id_existe (stock : List Produit) (e : List Char)
    (hlen : stock.length < MAX_PRODUITS) (h : (scanfS 19 e).1 ∈ stock.map Produit.id) :
    ajouterProduit stock e = some (Issue.idExiste, stock, viderBuffer (scanfS 19 e).2) := by
  have hc : (chercherId (scanfS 19 e).1 stock).isSome = true := by
    rw [Option.isSome_iff_ne_none]
    intro hn
    exact (chercherId_eq_none_iff _ _).mp hn h
  unfold ajouterProduit
  rw [if_neg (by omega)]
  simp only [hc, if_true]

theorem ajouterProduit_id_existe_witness :
    ajouterProduit stockRiz "A1\nBeans\n5\n300\n".toList
      = some (Issue.idExiste, stockRiz, "Beans\n5\n300\n".toList) :=
  ajouterProduit_id_existe stockRiz "A1\nBeans\n5\n300\n".toList (by decide) (by decide)

/-- C8. On a ledger of fewer than 100 records, when the id read is the id of no
record, `scanf("%d")` stores the quantity `q` with `0 ≤ q` after `k` refused
entries (nothing stored, or a negative number) and `scanf("%f")` stores the
price `prix`, for which `prix < PRIX_MIN` is false, after `m` refused entries
(nothing stored, or a value below `PRIX_MIN`), `ajouterProduit` ends with
"Produit ajoute avec succes!" and the ledger is the old one followed by the
record made of the id, the name read, `q` and `prix`: one record more, every
old record at its position.  With `k = 0` and `m = 0` the first entries are the
ones stored. -/
theorem ajouterProduit_ajoute (stock : List Produit) (e e4 e5 : List Char) (k m : Nat)
    (q : Int) (prix : Flottant)
    (hlen : stock.length < MAX_PRODUITS) (hid : (scanfS 19 e).1 ∉ stock.map Produit.id)
    (hkr : ∀ j < k, ∀ v,
      (scanfD (tourQuantite^[j] (lireTexte (viderBuffer (scanfS 19 e).2)).2)).1 = some v → v < 0)
    (hq : scanfD (tourQuantite^[k] (lireTexte (viderBuffer (scanfS 19 e).2)).2) = (some q, e4))
    (hq0 : 0 ≤ q)
    (hmr : ∀ j < m, ∀ v, (scanfF (tourPrix^[j] e4)).1 = some v → v < PRIX_MIN)
    (hp : scanfF (tourPrix^[m] e4) = (some prix, e5))
    (hp0 : ¬ prix < PRIX_MIN) :
    ajouterProduit stock e
      = some (Issue.ajoute,
          stock ++ [Produit.mk (scanfS 19 e).1 (lireTexte (viderBuffer (scanfS 19 e).2)).1 q prix],
          viderBuffer e5) ∧
    (stock ++ [Produit.mk (scanfS 19 e).1 (lireTexte (viderBuffer (scanfS 19 e).2)).1 q prix]).length
      = stock.length + 1 ∧
    ∀ i, i < stock.length →
      (stock ++ [Produit.mk (scanfS 19 e).1 (lireTexte (viderBuffer (scanfS 19 e).2)).1 q prix])[i]?
        = stock[i]? := by
  have hc : (chercherId (scanfS 19 e).1 stock).isSome = false := by
    rw [(chercherId_eq_none_iff _ _).mpr hid]
    rfl
  have hlq := lireQuantite_tours q e4 k _ hkr hq hq0
  have hlp := lirePrix_tours prix e5 m _ hmr hp hp0
  refine ⟨?_, by simp, ?_⟩
  · unfold ajouterProduit
    rw [if_neg (by omega)]
    simp only [hc, hlq, hlp]
    simp
  · intro i hi
    rw [List.getElem?_append_left hi]

theorem ajouterProduit_ajoute_witness :
    ajouterProduit stockRiz "B2\nBeans\nabc\n-4\n0\n0.001\n0.01\n".toList
      = some (Issue.ajoute, stockRiz ++ [⟨"B2".toList, "Beans".toList, 0, PRIX_MIN⟩], []) :=
  (ajouterProduit_ajoute stockRiz "B2\nBeans\nabc\n-4\n0\n0.001\n0.01\n".toList
    "\n0.001\n0.01\n".toList "\n".toList 2 1 0 PRIX_MIN (by decide) (by decide)
    (by
      intro j hj v hv
      have h0 : (scanfD (tourQuantite^[0]
          (lireTexte (viderBuffer (scanfS 19 "B2\nBeans\nabc\n-4\n0\n0.001\n0.01\n".toList).2)).2)).1
          = none := by decide!
      have h1 : (scanfD (tourQuantite^[1]
          (lireTexte (viderBuffer (scanfS 19 "B2\nBeans\nabc\n-4\n0\n0.001\n0.01\n".toList).2)).2)).1
          = some (-4) := by decide!
      interval_cases j
      · rw [h0] at hv
        cases hv
      · rw [h1] at hv
        cases hv
        decide)
    (by decide!) (by decide)
    (by
      intro j hj v hv
      have h0 : (scanfF (tourPrix^[0] "\n0.001\n0.01\n".toList)).1
          = some (arrondir (mkRat 1 1000)) := by decide!
      interval_cases j
      rw [h0] at hv
      cases hv
      decide!)
    (by decide!) (by decide!)).1

/-- C9. Adding a record whose id is new and then deleting that id gives back the
ledger; on the empty ledger, adding `("A1", "Rice", 10, 500.00)` gives a ledger
of one record, a second addition with id `A1` is refused and leaves that record
alone, deleting `A1` gives the empty ledger, and `afficherProduits` then prints
"Aucun produit en stock.". -/
theorem ajouter_puis_supprimer :
    (∀ (stock stock2 : List Produit) (e reste e2 : List Char),
      ajouterProduit stock e = some (Issue.ajoute, stock2, reste) →
      (scanfS 19 e2).1 = (scanfS 19 e).1 →
      supprimerProduit stock2 e2 = (Issue.supprime, stock, viderBuffer (scanfS 19 e2).2)) ∧
    ajouterProduit [] "A1\nRice\n10\n500.00\n".toList = some (Issue.ajoute, stockRiz, []) ∧
    ajouterProduit stockRiz "A1\nBeans\n5\n300\n".toList
      = some (Issue.idExiste, stockRiz, "Beans\n5\n300\n".toList) ∧
    supprimerProduit stockRiz "A1\n".toList = (Issue.supprime, [], []) ∧
    afficherProduits [] = Affichage.aucunProduit := by
  refine ⟨?_, by decide!, by decide!, by decide!, by decide!⟩
  intro stock stock2 e reste e2 hadd hid
  rcases ajouterProduit_cas hadd with ⟨h4, _⟩ | ⟨h4, _⟩ | ⟨_, nom, q, prix, rfl, _, hnew, _, _⟩
  · exact absurd h4 (by simp)
  · exact absurd h4 (by simp)
  · have hc := chercherId_append (scanfS 19 e).1 stock []
      (Produit.mk (scanfS 19 e).1 nom q prix) rfl hnew
    unfold supprimerProduit
    simp only [hid, hc]
    have hd := decaler_dropLast stock [] (Produit.mk (scanfS 19 e).1 nom q prix)
    rw [hd]
    simp

theorem ajouter_puis_supprimer_witness :
    supprimerProduit (stockRiz ++ [⟨"B2".toList, "Beans".toList, 5, 300⟩]) "B2\n".toList
      = (Issue.supprime, stockRiz, []) :=
  ajouter_puis_supprimer.1 stockRiz (stockRiz ++ [⟨"B2".toList, "Beans".toList, 5, 300⟩])
    "B2\nBeans\n5\n300\n".toList [] "B2\n".toList (by decide!) (by decide)

set_option maxRecDepth 100000 in
/-- C10. A stock file of 101 well-formed data lines (the text `sauvegarderStock`
writes for the records `p0`, ..., `p100`) is loaded from the empty ledger into
101 records: `chargerStock` appends past `MAX_PRODUITS`. -/
theorem chargerStock_depasse :
    chargerStock (some (sauvegarderStock (stockExemple "Rice".toList 101))) []
      = stockExemple " Rice".toList 101 ∧
    (chargerStock (some (sauvegarderStock (stockExemple "Rice".toList 101))) []).length = 101 ∧
    MAX_PRODUITS < 101 := by
  decide!

/-! ## The price and the quantity of a record -/

/-- C12. The quantity of a record can become negative: on the ledger of the
scenario, `modifierProduit` given the id `A1`, `0` for the name, `-5` for the
quantity and `0` for the price stores the quantity `-5`. -/
theorem quantite_negative_par_modification :
    ajouterProduit [] "A1\nRice\n10\n500.00\n".toList = some (Issue.ajoute, stockRiz, []) ∧
    modifierProduit stockRiz "A1\n0\n-5\n0\n".toList
      = some (Issue.modifie, [⟨"A1".toList, "Rice".toList, -5, 500⟩], []) ∧
    Atteignable [⟨"A1".toList, "Rice".toList, -5, 500⟩] ∧
    (Produit.mk "A1".toList "Rice".toList (-5) 500).quantite < 0 :=
  have h1 : ajouterProduit [] "A1\nRice\n10\n500.00\n".toList
      = some (Issue.ajoute, stockRiz, []) := by decide!
  have h2 : modifierProduit stockRiz "A1\n0\n-5\n0\n".toList
      = some (Issue.modifie, [⟨"A1".toList, "Rice".toList, -5, 500⟩], []) := by decide!
  ⟨h1, h2, Atteignable.modifier (Atteignable.ajouter Atteignable.vide h1) h2, by decide⟩


/-! ## The effect of `modifierProduit` -/

theorem lireTexte_of_ne_nil (e : List Char) (h : e ≠ []) :
    fgets 50 e = (some (lireLigne 49 e).1, (lireTexte e).2) ∧
    (lireTexte e).1 = couperFinDeLigne (lireLigne 49 e).1 := by
  cases e with
  | nil => exact absurd rfl h
  | cons c cs => simp [fgets, lireTexte]

theorem getElem?_append_cons (A B : List Produit) (x : Produit) :
    (A ++ x :: B)[A.length]? = some x := by
  rw [List.getElem?_append_right (Nat.le_refl _)]
  simp

/-- The result of `modifierProduit` when the id is found at position `i` and
the input does not end after the id. -/
theorem modifierProduit_trouve (stock : List Produit) (e : List Char) (i : Nat) (p : Produit)
    (hc : chercherId (scanfS 19 e).1 stock = some i) (hp : stock[i]? = some p)
    (he : viderBuffer (scanfS 19 e).2 ≠ []) :
    modifierProduit stock e
      = some (Issue.modifie,
          stock.set i
            ⟨p.id,
             if (lireTexte (viderBuffer (scanfS 19 e).2)).1 = ['0'] then p.nom
               else (lireTexte (viderBuffer (scanfS 19 e).2)).1,
             match (scanfD (lireTexte (viderBuffer (scanfS 19 e).2)).2).1 with
               | some q => if q ≠ 0 then q else p.quantite
               | none => p.quantite,
             match (scanfF (viderBuffer
                 (scanfD (lireTexte (viderBuffer (scanfS 19 e).2)).2).2)).1 with
               | some x => if x ≠ 0 then x else p.prix
               | none => p.prix⟩,
          viderBuffer (scanfF (viderBuffer
            (scanfD (lireTexte (viderBuffer (scanfS 19 e).2)).2).2)).2) := by
  obtain ⟨h1, h2⟩ := lireTexte_of_ne_nil _ he
  unfold modifierProduit
  simp only [hc, hp, h1, h2]

/-- C13. `modifierProduit` has a result as soon as the input does not end after
the id; whatever is entered, the ledger it leaves has the same number of
records and the same ids in the same order, and every record other than the
first one whose id is the id read is left as it was. -/
theorem modifierProduit_cadre (stock : List Produit) (e : List Char) :
    (viderBuffer (scanfS 19 e).2 ≠ [] → (modifierProduit stock e).isSome = true) ∧
    ∀ issue stock2 reste, modifierProduit stock e = some (issue, stock2, reste) →
      stock2.length = stock.length ∧ stock2.map Produit.id = stock.map Produit.id ∧
      ∀ (i : Nat) (p : Produit), stock[i]? = some p →
        (p.id ≠ (scanfS 19 e).1 ∨
          ∃ (j : Nat) (q : Produit), j < i ∧ stock[j]? = some q ∧ q.id = (scanfS 19 e).1) →
        stock2[i]? = some p := by
  constructor
  · intro he
    cases hc : chercherId (scanfS 19 e).1 stock with
    | none => simp [modifierProduit, hc]
    | some i =>
      obtain ⟨A, x, B, hs, hl, _, _⟩ := chercherId_some hc
      have hp : stock[i]? = some x := by rw [hs, ← hl]; exact getElem?_append_cons A B x
      rw [modifierProduit_trouve stock e i x hc hp he]
      rfl
  · intro issue stock2 reste h
    have hids := modifierProduit_ids h
    refine ⟨by simpa using congrArg List.length hids, hids, ?_⟩
    intro i p hp hautre
    cases hc : chercherId (scanfS 19 e).1 stock with
    | none =>
      simp only [modifierProduit, hc, Option.some.injEq, Prod.mk.injEq] at h
      rw [← h.2.1]; exact hp
    | some k =>
      obtain ⟨A, x, B, hs, hl, hx, hA⟩ := chercherId_some hc
      have hik : k ≠ i := by
        rintro rfl
        have hpx : p = x := by
          rw [hs, ← hl, getElem?_append_cons] at hp
          exact (Option.some.inj hp).symm
        rcases hautre with h1 | ⟨j, q, hj, hq, hqid⟩
        · exact h1 (hpx ▸ hx)
        · apply hA
          rw [hs] at hq
          rw [List.getElem?_append_left (by omega)] at hq
          rw [← hqid]
          exact List.mem_map_of_mem _ (List.getElem?_mem hq)
      unfold modifierProduit at h
      simp only [hc] at h
      cases hg : stock[k]? with
      | none => simp [hg] at h
      | some y =>
        rcases hf : fgets 50 (viderBuffer (scanfS 19 e).2) with ⟨_ | ligne, e3⟩
        · simp [hg, hf] at h
        · simp only [hg, hf, Option.some.injEq, Prod.mk.injEq] at h
          rw [← h.2.1, List.getElem?_set_ne hik]
          exact hp

theorem modifierProduit_cadre_witness :
    (modifierProduit (stockExemple "Rice".toList 3) "p1\nBeans\n7\n2.5\n".toList).isSome = true ∧
    (stockExemple "Rice".toList 3).set 1 ⟨"p1".toList, "Beans".toList, 7, arrondir (mkRat 5 2)⟩
      = [⟨"p0".toList, "Rice".toList, 1, 1⟩, ⟨"p1".toList, "Beans".toList, 7, arrondir (mkRat 5 2)⟩,
         ⟨"p2".toList, "Rice".toList, 1, 1⟩] ∧
    ((stockExemple "Rice".toList 3).set 1 ⟨"p1".toList, "Beans".toList, 7, arrondir (mkRat 5 2)⟩)[2]?
      = some ⟨"p2".toList, "Rice".toList, 1, 1⟩ :=
  ⟨(modifierProduit_cadre (stockExemple "Rice".toList 3) "p1\nBeans\n7\n2.5\n".toList).1
      (by decide),
   by decide!,
   ((modifierProduit_cadre (stockExemple "Rice".toList 3) "p1\nBeans\n7\n2.5\n".toList).2
      Issue.modifie _ [] (by decide!)).2.2 2 ⟨"p2".toList, "Rice".toList, 1, 1⟩ (by decide!)
      (Or.inl (by decide))⟩

/-- C14. When the id read is the id of a record and the input does not end
after it, `modifierProduit` ends with "Produit modifie avec succes!" and
replaces the first record `p` with that id by a record `r` with the same id:
the name of `r` is the name of `p` when the name entered is exactly `0` and
the name entered otherwise; its quantity is the quantity of `p` when no number
is entered or the number is 0, and the number entered otherwise, whatever its
sign; its price likewise.  So a quantity or a price that is not zero never
becomes zero. -/
theorem modifierProduit_zero_conserve (stock : List Produit) (e e2 e3 e4 : List Char)
    (h2 : e2 = viderBuffer (scanfS 19 e).2) (h3 : e3 = (lireTexte e2).2)
    (h4 : e4 = viderBuffer (scanfD e3).2)
    (hid : (scanfS 19 e).1 ∈ stock.map Produit.id) (he : e2 ≠ []) :
    ∃ i p r, chercherId (scanfS 19 e).1 stock = some i ∧ stock[i]? = some p ∧
      modifierProduit stock e
        = some (Issue.modifie, stock.set i r, viderBuffer (scanfF e4).2) ∧
      r.id = p.id ∧
      r.nom = (if (lireTexte e2).1 = ['0'] then p.nom else (lireTexte e2).1) ∧
      r.quantite = (match (scanfD e3).1 with
        | some q => if q = 0 then p.quantite else q
        | none => p.quantite) ∧
      r.prix = (match (scanfF e4).1 with
        | some x => if x = 0 then p.prix else x
        | none => p.prix) ∧
      (p.quantite ≠ 0 → r.quantite ≠ 0) ∧ (p.prix ≠ 0 → r.prix ≠ 0) := by
  subst h2 h3 h4
  cases hc : chercherId (scanfS 19 e).1 stock with
  | none => exact absurd hid ((chercherId_eq_none_iff _ _).mp hc)
  | some i =>
    obtain ⟨A, x, B, hs, hl, _, _⟩ := chercherId_some hc
    have hp : stock[i]? = some x := by rw [hs, ← hl]; exact getElem?_append_cons A B x
    refine ⟨i, x, _, rfl, hp, modifierProduit_trouve stock e i x hc hp he, rfl, rfl, ?_, ?_, ?_, ?_⟩
    · cases (scanfD (lireTexte (viderBuffer (scanfS 19 e).2)).2).1 with
      | none => rfl
      | some q => by_cases hq : q = 0 <;> simp [hq]
    · cases (scanfF (viderBuffer (scanfD (lireTexte (viderBuffer (scanfS 19 e).2)).2).2)).1 with
      | none => rfl
      | some q => by_cases hq : q = 0 <;> simp [hq]
    · intro hne
      cases (scanfD (lireTexte (viderBuffer (scanfS 19 e).2)).2).1 with
      | none => exact hne
      | some q => by_cases hq : q = 0 <;> simp [hq, hne]
    · intro hne
      cases (scanfF (viderBuffer (scanfD (lireTexte (viderBuffer (scanfS 19 e).2)).2).2)).1 with
      | none => exact hne
      | some q => by_cases hq : q = 0 <;> simp [hq, hne]

theorem modifierProduit_zero_conserve_witness :
    ∃ i p r, chercherId (scanfS 19 "A1\n0\n-5\nabc\n".toList).1 stockRiz = some i ∧
      stockRiz[i]? = some p ∧
      modifierProduit stockRiz "A1\n0\n-5\nabc\n".toList
        = some (Issue.modifie, stockRiz.set i r, viderBuffer (scanfF "abc\n".toList).2) ∧
      r.id = p.id ∧
      r.nom = (if (lireTexte "0\n-5\nabc\n".toList).1 = ['0'] then p.nom
        else (lireTexte "0\n-5\nabc\n".toList).1) ∧
      r.quantite = (match (scanfD "-5\nabc\n".toList).1 with
        | some q => if q = 0 then p.quantite else q
        | none => p.quantite) ∧
      r.prix = (match (scanfF "abc\n".toList).1 with
        | some x => if x = 0 then p.prix else x
        | none => p.prix) ∧
      (p.quantite ≠ 0 → r.quantite ≠ 0) ∧ (p.prix ≠ 0 → r.prix ≠ 0) :=
  modifierProduit_zero_conserve stockRiz "A1\n0\n-5\nabc\n".toList "0\n-5\nabc\n".toList
    "-5\nabc\n".toList "abc\n".toList (by decide) (by decide) (by decide) (by decide) (by decide)

/-! ## The comment filter of the loader -/

/-- C15. A stock file of one line, a comment that begins with `#` and is longer
than the 255 characters `fgets` stores, is loaded from the empty ledger into
one record: `fgets` delivers the line in two pieces, the test `ligne[0] == '#'`
skips the first, and the second, the end of the same comment line, is
converted by `sscanf` and stored.  One record per line that is not a comment
would give the empty ledger. -/
theorem chargerStock_long_commentaire :
    longCommentaire.head? = some '#' ∧
    longCommentaire.count '\n' = 1 ∧ longCommentaire.getLast? = some '\n' ∧
    fgets 256 longCommentaire
      = (some ('#' :: List.replicate 254 'x'), "A1|Rice|10|500.00\n".toList) ∧
    chargerStock (some longCommentaire) [] = [⟨"A1".toList, "Rice".toList, 10, 500⟩] := by
  decide!

/-! ## Loading a file with a repeated id -/

/-- C16. A stock file whose two data lines carry the same id `A1` is loaded
from the empty ledger into two records with the id `A1`: `chargerStock` appends
every accepted line without looking for the id in the ledger. -/
theorem chargerStock_id_repete :
    chargerStock
        (some (enTete ++ "\nA1| Rice| 10| 500.00\n\nA1| Beans| 5| 300.00\n".toList)) []
      = [⟨"A1".toList, " Rice".toList, 10, 500⟩, ⟨"A1".toList, " Beans".toList, 5, 300⟩] ∧
    ¬ ((chargerStock
        (some (enTete ++ "\nA1| Rice| 10| 500.00\n\nA1| Beans| 5| 300.00\n".toList)) []).map
          Produit.id).Nodup := by
  decide!

/-! ## The driver loop -/

/-- A number other than 1 to 6 is answered by "Choix invalide" and nothing else
happens in the round. -/
theorem tour_hors_menu (choix : Option Int) (stock : List Produit) (e r : List Char) (v : Int)
    (hs : scanfD e = (some v, r)) (hv : v < 1 ∨ 6 < v) :
    tour choix stock e = some (v, Evenement.choixInvalide, stock, viderBuffer r) := by
  have h1 : ¬ v = 1 := by omega
  have h2 : ¬ v = 2 := by omega
  have h3 : ¬ v = 3 := by omega
  have h4 : ¬ v = 4 := by omega
  have h5 : ¬ v = 5 := by omega
  have h6 : ¬ v = 6 := by omega
  simp only [tour, lireChoix, hs, h1, h2, h3, h4, h5, h6, if_false]

/-- An entry that is not a number leaves `choix` as the round before set it. -/
theorem lireChoix_non_numerique (c : Int) (e : List Char) (hs : (scanfD e).1 = none) :
    lireChoix (some c) e = some c := by
  simp only [lireChoix, hs]

/-- C17. After a round that chose 1, the entry `abc` is not answered by "Choix
invalide": `choix` is still 1, `ajouterProduit` is called again on the input
that follows and appends a record.  The whole run of `main` on an empty stock
file shows the two additions. -/
theorem entree_non_numerique_rejoue_le_choix :
    tour (some 1) stockRiz "abc\nB2\nBeans\n5\n300\n".toList
      = some (1, Evenement.ajouter Issue.ajoute,
          stockRiz ++ [⟨"B2".toList, "Beans".toList, 5, 300⟩], []) ∧
    main 3 none "1\nA1\nRice\n10\n500.00\nabc\nB2\nBeans\n5\n300\n6\n".toList
      = some ([Evenement.ajouter Issue.ajoute, Evenement.ajouter Issue.ajoute,
            Evenement.auRevoir],
          enTete ++ "\nA1| Rice| 10| 500.00\n\nB2| Beans| 5| 300.00\n".toList) := by
  decide!

/-! ## The listing -/

theorem digitChar_chiffre :
    ∀ d, d < 10 → (Nat.digitChar d).isDigit = true ∧ (Nat.digitChar d).toNat - 48 = d := by
  decide

theorem toDigitsCore_eq (f : Nat) :
    ∀ (n : Nat) (acc : List Char), n < f →
      Nat.toDigitsCore 10 f n acc = Nat.toDigits 10 n ++ acc := by
  induction f using Nat.strong_induction_on with
  | _ f ih =>
    intro n acc hn
    obtain ⟨f2, rfl⟩ : ∃ f2, f = f2 + 1 := ⟨f - 1, by omega⟩
    by_cases h0 : n / 10 = 0
    · simp [Nat.toDigits, Nat.toDigitsCore, h0]
    · have hlt : n / 10 < n := by omega
      have h1 : Nat.toDigitsCore 10 (f2 + 1) n acc
          = Nat.toDigitsCore 10 f2 (n / 10) (Nat.digitChar (n % 10) :: acc) := by
        simp [Nat.toDigitsCore, h0]
      have h2 : Nat.toDigits 10 n
          = Nat.toDigitsCore 10 n (n / 10) [Nat.digitChar (n % 10)] := by
        simp [Nat.toDigits, Nat.toDigitsCore, h0]
      rw [h1, h2]
      by_cases hf : n = f2
      · subst hf
        rw [ih n (by omega) (n / 10) _ hlt, ih n (by omega) (n / 10) _ hlt]
        simp
      · rw [ih f2 (by omega) (n / 10) _ (by omega), ih n (by omega) (n / 10) _ hlt]
        simp

theorem toDigits_petit (n : Nat) (h : n < 10) : Nat.toDigits 10 n = [Nat.digitChar n] := by
  have h0 : n / 10 = 0 := by omega
  have h1 : n % 10 = n := by omega
  simp [Nat.toDigits, Nat.toDigitsCore, h0, h1]

theorem toDigits_grand (n : Nat) (h : 10 ≤ n) :
    Nat.toDigits 10 n = Nat.toDigits 10 (n / 10) ++ [Nat.digitChar (n % 10)] := by
  have h0 : ¬ n / 10 = 0 := by omega
  have h2 : Nat.toDigits 10 n
      = Nat.toDigitsCore 10 n (n / 10) [Nat.digitChar (n % 10)] := by
    simp [Nat.toDigits, Nat.toDigitsCore, h0]
  rw [h2, toDigitsCore_eq n (n / 10) _ (by omega)]

theorem valeurChiffres_append (a : List Char) (c : Char) :
    valeurChiffres (a ++ [c]) = 10 * valeurChiffres a + (c.toNat - 48) := by
  simp [valeurChiffres, List.foldl_append]

/-- The digits `printf` writes for `n` are digits, at least one, and their value is `n`. -/
theorem toDigits_chiffres (n : Nat) :
    (∀ c ∈ Nat.toDigits 10 n, c.isDigit = true) ∧ Nat.toDigits 10 n ≠ [] ∧
      valeurChiffres (Nat.toDigits 10 n) = n := by
  induction n using Nat.strong_induction_on with
  | _ n ih =>
    by_cases h : n < 10
    · rw [toDigits_petit n h]
      obtain ⟨h1, h2⟩ := digitChar_chiffre n h
      refine ⟨by simpa using h1, by simp, ?_⟩
      simp [valeurChiffres, h2]
    · have h10 : 10 ≤ n := by omega
      obtain ⟨i1, _, i3⟩ := ih (n / 10) (by omega)
      obtain ⟨h1, h2⟩ := digitChar_chiffre (n % 10) (by omega)
      rw [toDigits_grand n h10]
      refine ⟨?_, by simp, ?_⟩
      · intro c hc
        rcases List.mem_append.mp hc with hc | hc
        · exact i1 c hc
        · rw [List.mem_singleton.mp hc]; exact h1
      · rw [valeurChiffres_append, i3, h2]
        omega

theorem toDigits_length (n k : Nat) (h : n < 10 ^ k) (hk : 0 < k) :
    (Nat.toDigits 10 n).length ≤ k :=
  Nat.toDigitsCore_length 10 (by decide) (n + 1) n k h hk

theorem takeWhile_arret (p : Char → Bool) (ds rest : List Char) (c : Char)
    (h : ∀ x ∈ ds, p x = true) (hc : p c = false) :
    (ds ++ c :: rest).takeWhile p = ds ∧ (ds ++ c :: rest).dropWhile p = c :: rest := by
  induction ds with
  | nil => simp [List.takeWhile, List.dropWhile, hc]
  | cons d ds ih =>
    have hd : p d = true := h d (by simp)
    obtain ⟨i1, i2⟩ := ih (fun x hx => h x (by simp [hx]))
    simp [List.takeWhile, List.dropWhile, hd, i1, i2]


theorem chiffre_ordinaire (c : Char) (h : c.isDigit = true) :
    isspace c = false ∧ c ≠ '-' ∧ c ≠ '+' ∧ c ≠ '|' ∧ c ≠ '.' ∧ c ≠ '\n' := by
  have key : ∀ d : Char, d.isDigit = false → c ≠ d := by
    intro d hd hcd
    rw [hcd, hd] at h
    exact absurd h (by simp)
  have e1 := key ' ' (by decide)
  have e2 := key '\t' (by decide)
  have e3 := key '\n' (by decide)
  have e4 := key '\x0b' (by decide)
  have e5 := key '\x0c' (by decide)
  have e6 := key '\r' (by decide)
  refine ⟨?_, key _ (by decide), key _ (by decide), key _ (by decide), key _ (by decide), e3⟩
  simp [isspace, e1, e2, e3, e4, e5, e6]

theorem versInt_eq (q : Int) (h1 : -(2 ^ 31) ≤ q) (h2 : q < 2 ^ 31) : versInt q = q := by
  unfold versInt
  simp only
  have a : min q (2 ^ 63 - 1) = q := min_eq_left (by omega)
  have b : max (-(2 ^ 63)) q = q := max_eq_right (by omega)
  rw [a, b]
  omega

/-- The directive `%N[^|]` on a field that fits it and is followed by `|`. -/
theorem scanEnsemble_champ (w : Nat) (m rest : List Char) (hne : m ≠ []) (hb : '|' ∉ m)
    (hw : m.length ≤ w) :
    scanEnsemble w (m ++ '|' :: rest) = some (m, '|' :: rest) := by
  have hp : ∀ x ∈ m, (fun c : Char => decide (c ≠ '|')) x = true := by
    intro x hx
    have : x ≠ '|' := fun h => hb (h ▸ hx)
    simpa using this
  obtain ⟨h1, _⟩ := takeWhile_arret (fun c : Char => decide (c ≠ '|')) m rest '|' hp (by simp)
  unfold scanEnsemble
  simp only [h1, List.take_of_length_le hw, if_neg hne, List.drop_left']

/-- The directive `%d` reads back the number `%d` wrote after a space. -/
theorem scanfD_ecrireD (q : Int) (c : Char) (rest : List Char) (hc : c.isDigit = false)
    (h1 : -(2 ^ 31) ≤ q) (h2 : q < 2 ^ 31) :
    scanfD (' ' :: (ecrireD q ++ c :: rest)) = (some q, c :: rest) := by
  by_cases hq : q < 0
  · obtain ⟨d1, d2, d3⟩ := toDigits_chiffres q.natAbs
    obtain ⟨t1, t2⟩ := takeWhile_arret Char.isDigit (Nat.toDigits 10 q.natAbs) rest c d1 hc
    have hdrop : (' ' :: (ecrireD q ++ c :: rest)).dropWhile isspace
        = '-' :: (Nat.toDigits 10 q.natAbs ++ c :: rest) := by
      simp only [ecrireD, if_pos hq, List.cons_append]
      rw [List.dropWhile_cons_of_pos (by decide), List.dropWhile_cons_of_neg (by decide)]
    have hs : lireSigne ('-' :: (Nat.toDigits 10 q.natAbs ++ c :: rest))
        = (true, Nat.toDigits 10 q.natAbs ++ c :: rest) := by
      simp [lireSigne]
    unfold scanfD
    simp only [hdrop, hs, t1, t2, if_neg d2, d3, if_true]
    have hv : -(q.natAbs : Int) = q := by omega
    rw [hv, versInt_eq q h1 h2]
  · obtain ⟨d1, d2, d3⟩ := toDigits_chiffres q.toNat
    obtain ⟨t1, t2⟩ := takeWhile_arret Char.isDigit (Nat.toDigits 10 q.toNat) rest c d1 hc
    obtain ⟨x, xs, hx⟩ := List.exists_cons_of_ne_nil d2
    have hxd : x.isDigit = true := d1 x (by rw [hx]; simp)
    obtain ⟨o1, o2, o3, _, _, _⟩ := chiffre_ordinaire x hxd
    have hdrop : (' ' :: (ecrireD q ++ c :: rest)).dropWhile isspace
        = Nat.toDigits 10 q.toNat ++ c :: rest := by
      simp only [ecrireD, if_neg hq]
      rw [List.dropWhile_cons_of_pos (by decide), hx, List.cons_append,
        List.dropWhile_cons_of_neg (by simp [o1])]
    have hs : lireSigne (Nat.toDigits 10 q.toNat ++ c :: rest)
        = (false, Nat.toDigits 10 q.toNat ++ c :: rest) := by
      rw [hx]
      simp [lireSigne, o2, o3]
    unfold scanfD
    simp only [hdrop, hs, t1, t2, if_neg d2, d3]
    have hv : ((q.toNat : Nat) : Int) = q := by omega
    simp only [Bool.false_eq_true, if_false, hv]
    rw [versInt_eq q h1 h2]


theorem valeurChiffres_centiemes (c : Nat) :
    valeurChiffres (Nat.toDigits 10 (c / 100) ++
      [Nat.digitChar (c % 100 / 10), Nat.digitChar (c % 10)]) = c := by
  obtain ⟨_, _, d3⟩ := toDigits_chiffres (c / 100)
  obtain ⟨_, a2⟩ := digitChar_chiffre (c % 100 / 10) (by omega)
  obtain ⟨_, b2⟩ := digitChar_chiffre (c % 10) (by omega)
  have h : Nat.toDigits 10 (c / 100) ++ [Nat.digitChar (c % 100 / 10), Nat.digitChar (c % 10)]
      = (Nat.toDigits 10 (c / 100) ++ [Nat.digitChar (c % 100 / 10)])
          ++ [Nat.digitChar (c % 10)] := by simp
  rw [h, valeurChiffres_append, valeurChiffres_append, d3, a2, b2]
  omega

/-- The number part of what `%.2f` writes, followed by a newline, as `%f` reads it. -/
theorem scanfF_nombre (neg : Bool) (c : Nat) (rest : List Char) :
    let texte := Nat.toDigits 10 (c / 100) ++
      '.' :: Nat.digitChar (c % 100 / 10) :: Nat.digitChar (c % 10) :: '\n' :: rest
    lireSigne (texte) = (false, texte) ∧ (texte.dropWhile isspace = texte) ∧
    ((lireSigne ((' ' :: ((if neg then ['-'] else []) ++ texte)).dropWhile isspace)).1 = neg ∧
      (lireSigne ((' ' :: ((if neg then ['-'] else []) ++ texte)).dropWhile isspace)).2 = texte) := by
  intro texte
  obtain ⟨d1, d2, _⟩ := toDigits_chiffres (c / 100)
  obtain ⟨x, xs, hx⟩ := List.exists_cons_of_ne_nil d2
  have hxd : x.isDigit = true := d1 x (by rw [hx]; simp)
  obtain ⟨o1, o2, o3, _, _, _⟩ := chiffre_ordinaire x hxd
  have ht : texte = x :: (xs ++
      '.' :: Nat.digitChar (c % 100 / 10) :: Nat.digitChar (c % 10) :: '\n' :: rest) := by
    simp only [texte, hx, List.cons_append]
  have hs : lireSigne texte = (false, texte) := by
    rw [ht]
    simp [lireSigne, o2, o3]
  have hd : texte.dropWhile isspace = texte := by
    rw [ht, List.dropWhile_cons_of_neg (by simp [o1])]
  refine ⟨hs, hd, ?_⟩
  cases neg with
  | false =>
    simp only [Bool.false_eq_true, if_false, List.nil_append]
    rw [List.dropWhile_cons_of_pos (by decide), hd, hs]
    exact ⟨rfl, rfl⟩
  | true =>
    simp only [if_true, List.singleton_append]
    rw [List.dropWhile_cons_of_pos (by decide), List.dropWhile_cons_of_neg (by decide)]
    simp [lireSigne]

theorem chiffre_lettre (c : Char) (h : c.isDigit = true) :
    c ≠ 'n' ∧ c ≠ 'N' ∧ c ≠ 'i' ∧ c ≠ 'I' ∧ c ≠ 'x' ∧ c ≠ 'X' := by
  have key : ∀ d : Char, d.isDigit = false → c ≠ d := by
    intro d hd hcd
    rw [hcd, hd] at h
    exact absurd h (by simp)
  exact ⟨key _ (by decide), key _ (by decide), key _ (by decide), key _ (by decide),
    key _ (by decide), key _ (by decide)⟩

/-- A text that begins with a digit begins with none of the words of `%f`. -/
theorem lireMot_chiffre (c : Char) (cs : List Char) (h : c.isDigit = true) :
    lireMot (c :: cs) = none := by
  obtain ⟨n1, n2, i1, i2, _, _⟩ := chiffre_lettre c h
  simp [lireMot, commun, motNan, motInf, n1, n2, i1, i2]

/-- Digits followed by a point do not begin with the prefix `0x`. -/
theorem prefixeHexa_chiffres (ds rest : List Char) (h : ∀ c ∈ ds, c.isDigit = true) :
    prefixeHexa (ds ++ '.' :: rest) = false := by
  cases ds with
  | nil => cases rest <;> simp [prefixeHexa]
  | cons c cs =>
    cases cs with
    | nil => simp [prefixeHexa]
    | cons d ds2 =>
      obtain ⟨_, _, _, _, x1, x2⟩ := chiffre_lettre d (h d (by simp))
      simp [prefixeHexa, x1, x2]

/-- The directive `%f` reads back what `%.2f` wrote after a space: a finite
price rounded to hundredths and then to `float`, an infinity or a NaN as it was. -/
theorem scanfF_ecrireF2 (x : Flottant) (rest : List Char) :
    scanfF (' ' :: (ecrireF2 x ++ '\n' :: rest)) = (some x.relire, '\n' :: rest) := by
  cases x with
  | nan =>
    unfold scanfF
    simp [ecrireF2, Flottant.relire, lireSigne, lireMot, commun, motNan, isspace]
  | infini neg =>
    unfold scanfF
    cases neg <;>
      simp [ecrireF2, Flottant.relire, lireSigne, lireMot, commun, motNan, motInf, motInity,
        isspace]
  | fini p hp =>
    obtain ⟨d1, d2, _⟩ := toDigits_chiffres (centiemes p / 100)
    obtain ⟨a1, _⟩ := digitChar_chiffre (centiemes p % 100 / 10) (by omega)
    obtain ⟨b1, _⟩ := digitChar_chiffre (centiemes p % 10) (by omega)
    obtain ⟨_, _, s1, s2⟩ := scanfF_nombre (decide (p < 0)) (centiemes p) rest
    obtain ⟨t1, t2⟩ := takeWhile_arret Char.isDigit (Nat.toDigits 10 (centiemes p / 100))
      (Nat.digitChar (centiemes p % 100 / 10) :: Nat.digitChar (centiemes p % 10) :: '\n' :: rest)
      '.' d1 (by decide)
    obtain ⟨u1, u2⟩ := takeWhile_arret Char.isDigit
      [Nat.digitChar (centiemes p % 100 / 10), Nat.digitChar (centiemes p % 10)] rest '\n'
      (by intro x hx; simp at hx; rcases hx with rfl | rfl <;> assumption) (by decide)
    obtain ⟨c, cs, hc⟩ := List.exists_cons_of_ne_nil d2
    have hmot : lireMot (Nat.toDigits 10 (centiemes p / 100) ++
        '.' :: Nat.digitChar (centiemes p % 100 / 10) :: Nat.digitChar (centiemes p % 10)
          :: '\n' :: rest) = none := by
      rw [hc, List.cons_append]
      exact lireMot_chiffre c _ (d1 c (by rw [hc]; simp))
    have hhex := prefixeHexa_chiffres (Nat.toDigits 10 (centiemes p / 100))
      (Nat.digitChar (centiemes p % 100 / 10) :: Nat.digitChar (centiemes p % 10) :: '\n' :: rest)
      d1
    have htexte : ' ' :: (ecrireF2 (Flottant.fini p hp) ++ '\n' :: rest)
        = ' ' :: ((if decide (p < 0) = true then ['-'] else []) ++
            (Nat.toDigits 10 (centiemes p / 100) ++
              '.' :: Nat.digitChar (centiemes p % 100 / 10) :: Nat.digitChar (centiemes p % 10)
                :: '\n' :: rest)) := by
      simp [ecrireF2]
    simp only [List.cons_append, List.nil_append] at u1 u2
    have hman : lireMantisse Char.isDigit (Nat.toDigits 10 (centiemes p / 100) ++
        '.' :: Nat.digitChar (centiemes p % 100 / 10) :: Nat.digitChar (centiemes p % 10)
          :: '\n' :: rest)
        = (Nat.toDigits 10 (centiemes p / 100),
            [Nat.digitChar (centiemes p % 100 / 10), Nat.digitChar (centiemes p % 10)],
            '\n' :: rest) := by
      unfold lireMantisse
      simp only [t1, t2, u1, u2, if_true]
    have hexp : lireExposant 'e' 'E' ('\n' :: rest) = (0, '\n' :: rest) := by
      simp [lireExposant]
    have hne : ¬ (Nat.toDigits 10 (centiemes p / 100) = [] ∧
        [Nat.digitChar (centiemes p % 100 / 10), Nat.digitChar (centiemes p % 10)] = []) := by
      simp
    rw [htexte]
    unfold scanfF
    simp only [s1, s2, hmot, hhex, Bool.false_eq_true, if_false, lireDecimal, hman, if_neg hne,
      hexp, valeurChiffres_centiemes, List.length_cons, List.length_nil, Flottant.relire]

/-! ## Reading back the line of a record -/

theorem ecrireProduit_eq (p : Produit) :
    ecrireProduit p = '\n' :: (ligneProduit p ++ ['\n']) := by
  simp [ecrireProduit, ligneProduit]

theorem scanBarre_cons (s : List Char) : scanBarre ('|' :: s) = some s := by
  simp [scanBarre]

/-- The line written for a record that fits the C structure and has the form
of C19 is converted by `sscanf` to the record `relu p`. -/
theorem sscanfLigne_ligneProduit (p : Produit) (hr : p.representable) (hb : p.bienForme) :
    sscanfLigne (ligneProduit p ++ ['\n']) = some (relu p) := by
  obtain ⟨r1, _, r3, r4⟩ := hr
  obtain ⟨b1, b2, _, _, b5, _, b7⟩ := hb
  have e1 : ligneProduit p ++ ['\n']
      = p.id ++ '|' :: ((' ' :: p.nom) ++ '|' :: ' ' :: (ecrireD p.quantite ++
          '|' :: ' ' :: (ecrireF2 p.prix ++ '\n' :: []))) := by
    simp [ligneProduit]
  have s1 := scanEnsemble_champ 19 p.id ((' ' :: p.nom) ++ '|' :: ' ' :: (ecrireD p.quantite ++
    '|' :: ' ' :: (ecrireF2 p.prix ++ '\n' :: []))) b1 b2 r1
  have hnom : '|' ∉ ' ' :: p.nom := by
    intro h
    rcases List.mem_cons.mp h with h | h
    · exact absurd h (by decide)
    · exact b5 h
  have s2 := scanEnsemble_champ 49 (' ' :: p.nom) (' ' :: (ecrireD p.quantite ++
    '|' :: ' ' :: (ecrireF2 p.prix ++ '\n' :: []))) (by simp) hnom (by simp; omega)
  have s3 := scanfD_ecrireD p.quantite '|' (' ' :: (ecrireF2 p.prix ++ '\n' :: []))
    (by decide) r3 r4
  have s4 := scanfF_ecrireF2 p.prix []
  rw [e1]
  unfold sscanfLigne
  simp only [s1, scanBarre_cons, s2, s3, s4]
  rfl

theorem lireLigne_ligne (l : List Char) :
    ∀ (k : Nat) (rest : List Char), '\n' ∉ l → l.length < k →
      lireLigne k (l ++ '\n' :: rest) = (l ++ ['\n'], rest) := by
  induction l with
  | nil =>
    intro k rest _ hk
    obtain ⟨k2, rfl⟩ : ∃ k2, k = k2 + 1 := ⟨k - 1, by simp at hk; omega⟩
    simp [lireLigne]
  | cons c cs ih =>
    intro k rest hn hk
    obtain ⟨k2, rfl⟩ : ∃ k2, k = k2 + 1 := ⟨k - 1, by simp at hk; omega⟩
    have hc : ¬ c = '\n' := fun h => hn (by simp [h])
    have hcs : '\n' ∉ cs := fun h => hn (List.mem_cons_of_mem _ h)
    have hrec := ih k2 rest hcs (by simp at hk; omega)
    rw [List.cons_append, lireLigne, if_neg hc, hrec]
    rfl

theorem centiemes_borne (x : ℚ) (h : x.num.natAbs < 2 ^ 128 * x.den) :
    centiemes x / 100 < 10 ^ 39 := by
  have hden : 0 < x.den := x.den_pos
  have hq : x.num.natAbs * 100 / x.den < 2 ^ 128 * 100 := by
    rw [Nat.div_lt_iff_lt_mul hden]
    calc x.num.natAbs * 100 < 2 ^ 128 * x.den * 100 := by omega
      _ = 2 ^ 128 * 100 * x.den := by ring
  have hc : centiemes x ≤ x.num.natAbs * 100 / x.den + 1 := by
    unfold centiemes
    simp only
    split_ifs <;> omega
  have : centiemes x / 100 ≤ 2 ^ 128 := by
    rw [Nat.div_le_iff_le_mul_add_pred (by decide)]
    omega
  calc centiemes x / 100 ≤ 2 ^ 128 := this
    _ < 10 ^ 39 := by norm_num

theorem ecrireD_texte (q : Int) (h1 : -(2 ^ 31) ≤ q) (h2 : q < 2 ^ 31) :
    '\n' ∉ ecrireD q ∧ (ecrireD q).length ≤ 11 := by
  by_cases hq : q < 0
  · obtain ⟨d1, _, _⟩ := toDigits_chiffres q.natAbs
    have hl := toDigits_length q.natAbs 10 (by omega) (by decide)
    simp only [ecrireD, if_pos hq, List.length_cons]
    refine ⟨?_, by omega⟩
    intro h
    rcases List.mem_cons.mp h with h | h
    · exact absurd h (by decide)
    · exact (chiffre_ordinaire _ (d1 _ h)).2.2.2.2.2 rfl
  · obtain ⟨d1, _, _⟩ := toDigits_chiffres q.toNat
    have hl := toDigits_length q.toNat 10 (by omega) (by decide)
    simp only [ecrireD, if_neg hq]
    refine ⟨?_, by omega⟩
    intro h
    exact (chiffre_ordinaire _ (d1 _ h)).2.2.2.2.2 rfl

theorem ecrireF2_texte (x : Flottant) :
    '\n' ∉ ecrireF2 x ∧ (ecrireF2 x).length ≤ 43 := by
  cases x with
  | nan => exact ⟨by decide, by decide⟩
  | infini neg => cases neg <;> exact ⟨by decide, by decide⟩
  | fini x h =>
    obtain ⟨d1, _, _⟩ := toDigits_chiffres (centiemes x / 100)
    obtain ⟨a1, _⟩ := digitChar_chiffre (centiemes x % 100 / 10) (by omega)
    obtain ⟨b1, _⟩ := digitChar_chiffre (centiemes x % 10) (by omega)
    have hl := toDigits_length (centiemes x / 100) 39 (centiemes_borne x h) (by decide)
    constructor
    · intro hm
      simp only [ecrireF2, List.mem_append, List.mem_cons, List.mem_singleton,
        List.not_mem_nil, or_false] at hm
      rcases hm with (hm | hm) | hm | hm | hm
      · split_ifs at hm
        · simp at hm
        · simp at hm
      · exact (chiffre_ordinaire _ (d1 _ hm)).2.2.2.2.2 rfl
      · exact absurd hm (by decide)
      · exact (chiffre_ordinaire _ a1).2.2.2.2.2 hm.symm
      · exact (chiffre_ordinaire _ b1).2.2.2.2.2 hm.symm
    · simp only [ecrireF2, List.length_append, List.length_cons, List.length_nil]
      split_ifs <;> simp <;> omega

theorem ligneProduit_texte (p : Produit) (hr : p.representable) (hb : p.bienForme) :
    '\n' ∉ ligneProduit p ∧ (ligneProduit p).length < 255 ∧
      ∃ c cs, ligneProduit p = c :: cs ∧ c ≠ '#' ∧ c ≠ '\n' := by
  obtain ⟨r1, _, r3, r4⟩ := hr
  obtain ⟨b1, _, b3, b4, _, b6, b7⟩ := hb
  obtain ⟨q1, q2⟩ := ecrireD_texte p.quantite r3 r4
  obtain ⟨f1, f2⟩ := ecrireF2_texte p.prix
  have hid : '\n' ∉ p.id := fun h => absurd (b3 _ h) (by decide)
  refine ⟨?_, ?_, ?_⟩
  · intro hm
    simp only [ligneProduit, List.mem_append, List.mem_cons] at hm
    rcases hm with hm | hm | hm | hm | hm | hm | hm | hm | hm | hm
    · exact hid hm
    · exact absurd hm (by decide)
    · exact absurd hm (by decide)
    · exact b6 hm
    · exact absurd hm (by decide)
    · exact absurd hm (by decide)
    · exact q1 hm
    · exact absurd hm (by decide)
    · exact absurd hm (by decide)
    · exact f1 hm
  · simp only [ligneProduit, List.length_append, List.length_cons]
    omega
  · obtain ⟨c, cs, hc⟩ := List.exists_cons_of_ne_nil b1
    refine ⟨c, cs ++ '|' :: ' ' :: (p.nom ++ '|' :: ' ' :: (ecrireD p.quantite ++
      '|' :: ' ' :: ecrireF2 p.prix)), by simp [ligneProduit, hc], ?_, ?_⟩
    · intro h
      apply b4
      rw [hc, h]
      rfl
    · intro h
      apply hid
      rw [hc, h]
      simp


/-! ## Saving, then loading -/

theorem fgets_ligne (l rest : List Char) (hne : l ≠ []) (hn : '\n' ∉ l) (hk : l.length < 255) :
    fgets 256 (l ++ '\n' :: rest) = (some (l ++ ['\n']), rest) := by
  obtain ⟨c, cs, rfl⟩ := List.exists_cons_of_ne_nil hne
  have h := lireLigne_ligne (c :: cs) 255 rest hn hk
  have : fgets 256 (c :: cs ++ '\n' :: rest)
      = (some (lireLigne 255 (c :: cs ++ '\n' :: rest)).1,
          (lireLigne 255 (c :: cs ++ '\n' :: rest)).2) := rfl
  rw [this, h]

theorem chargerLignes_produit (p : Produit) (hr : p.representable) (hb : p.bienForme)
    (f : Nat) (rest : List Char) (stock : List Produit) :
    chargerLignes (f + 2) (ecrireProduit p ++ rest) stock
      = chargerLignes f rest (stock ++ [relu p]) := by
  obtain ⟨t1, t2, c, cs, t3, t4, t5⟩ := ligneProduit_texte p hr hb
  have hs := sscanfLigne_ligneProduit p hr hb
  have e1 : ecrireProduit p ++ rest = '\n' :: (ligneProduit p ++ '\n' :: rest) := by
    simp [ecrireProduit_eq]
  have g1 : fgets 256 ('\n' :: (ligneProduit p ++ '\n' :: rest))
      = (some ['\n'], ligneProduit p ++ '\n' :: rest) := by
    simp [fgets, lireLigne]
  have g2 : fgets 256 (ligneProduit p ++ '\n' :: rest)
      = (some (ligneProduit p ++ ['\n']), rest) :=
    fgets_ligne _ rest (by rw [t3]; simp) t1 t2
  have hh : (ligneProduit p ++ ['\n']).head? = some c := by
    rw [t3]; rfl
  have hcond : ¬ ((ligneProduit p ++ ['\n']).head? = some '#' ∨
      (ligneProduit p ++ ['\n']).head? = some '\n') := by
    rw [hh]
    simp [t4, t5]
  rw [e1]
  simp only [chargerLignes, g1, g2, hs, if_neg hcond]
  simp

theorem chargerLignes_enTete (f : Nat) (rest : List Char) (stock : List Produit) :
    chargerLignes (f + 2) (enTete ++ rest) stock = chargerLignes f rest stock := by
  have e1 : enTete ++ rest
      = "# Fichier de stock".toList ++ '\n' ::
          ("# Format: ID| Nom| Quantité| Prix".toList ++ '\n' :: rest) := rfl
  have g1 := fgets_ligne "# Fichier de stock".toList
    ("# Format: ID| Nom| Quantité| Prix".toList ++ '\n' :: rest) (by decide) (by decide)
    (by decide)
  have g2 := fgets_ligne "# Format: ID| Nom| Quantité| Prix".toList rest (by decide)
    (by decide) (by decide)
  have c1 : ("# Fichier de stock".toList ++ ['\n']).head? = some '#' := rfl
  have c2 : ("# Format: ID| Nom| Quantité| Prix".toList ++ ['\n']).head? = some '#' := rfl
  rw [e1]
  simp only [chargerLignes, g1, g2, c1, c2, true_or, if_true]

theorem chargerLignes_produits (stock : List Produit) :
    ∀ (acc : List Produit) (f : Nat), (∀ p ∈ stock, p.representable ∧ p.bienForme) →
      ((stock.map ecrireProduit).flatten).length ≤ f →
      chargerLignes f (stock.map ecrireProduit).flatten acc = acc ++ stock.map relu := by
  induction stock with
  | nil =>
    intro acc f _ _
    cases f <;> simp [chargerLignes, fgets]
  | cons p ps ih =>
    intro acc f h hf
    obtain ⟨hr, hb⟩ := h p (by simp)
    have h2 : 2 ≤ (ecrireProduit p).length := by
      rw [ecrireProduit_eq]; simp
    simp only [List.map_cons, List.flatten_cons, List.length_append] at hf ⊢
    obtain ⟨f2, rfl⟩ : ∃ f2, f = f2 + 2 := ⟨f - 2, by omega⟩
    rw [chargerLignes_produit p hr hb, ih _ f2 (fun x hx => h x (by simp [hx])) (by omega)]
    simp

/-- C19. For a ledger (of any length, so of at most 100 records) whose records
fit the C structure, whose ids
are not empty, contain no `|` and no white space and do not begin with `#`, and
whose names contain no `|` and no newline and have at most 48 characters,
loading the text `sauvegarderStock` writes gives, in the same order, the same
number of records, each with the id and the quantity of the original and with
the name of the original after one space (and the price rounded to hundredths). -/
theorem sauvegarder_puis_charger (stock : List Produit)
    (h : ∀ p ∈ stock, p.representable ∧ p.bienForme) :
    chargerStock (some (sauvegarderStock stock)) [] = stock.map relu ∧
    (chargerStock (some (sauvegarderStock stock)) []).length = stock.length ∧
    ∀ (i : Nat) (p : Produit), stock[i]? = some p →
      ∃ r, (chargerStock (some (sauvegarderStock stock)) [])[i]? = some r ∧
        r.id = p.id ∧ r.quantite = p.quantite ∧ r.nom = ' ' :: p.nom := by
  have key : chargerStock (some (sauvegarderStock stock)) [] = stock.map relu := by
    have hl : (sauvegarderStock stock).length
        = ((stock.map ecrireProduit).flatten).length + 51 + 2 := by
      simp only [sauvegarderStock, List.length_append]
      have : enTete.length = 53 := by decide
      omega
    simp only [chargerStock, hl]
    rw [sauvegarderStock, chargerLignes_enTete, chargerLignes_produits stock [] _ h (by omega)]
    simp
  refine ⟨key, by rw [key]; simp, ?_⟩
  intro i p hp
  refine ⟨relu p, ?_, rfl, rfl, rfl⟩
  rw [key, List.getElem?_map, hp]
  rfl

theorem sauvegarder_puis_charger_witness :
    chargerStock (some (sauvegarderStock (stockExemple "Rice".toList 2))) []
      = stockExemple " Rice".toList 2 :=
  (sauvegarder_puis_charger (stockExemple "Rice".toList 2) (by decide!)).1.trans
    (by decide!)

end Stock
